import Mathlib

/-!
Shallow embedding of the llm-batch OpenAI logging addon
(`src/openai_logger.py` and `src/log_storage.py`) and proofs about it.

JSON values are modelled by an inductive type; Python dicts become
association lists that preserve insertion order (assignment updates an
existing key in place, otherwise appends).  Fallible Python code paths
(`TypeError`, `AttributeError`, `IndexError`) are modelled with
`Except String`.  The external JSON decoder (`orjson.loads`) is an
abstract parameter `decode : String → Option Json`.
-/

namespace LlmBatch

/-- JSON values as produced by the decoder. -/
inductive Json where
  | null
  | bool (b : Bool)
  | num (n : Int)
  | str (s : String)
  | arr (elems : List Json)
  | obj (fields : List (String × Json))
deriving Repr, Inhabited

/-- Fields of a JSON object / Python dict, in insertion order. -/
abbrev Obj := List (String × Json)

/-- First-match lookup in a Python dict. -/
def lookupVal (fields : Obj) (k : String) : Option Json :=
  match fields with
  | [] => none
  | (k', v) :: rest => if k' = k then some v else lookupVal rest k

/-- Python `d[k] = v`: update an existing key in place, else append. -/
def setKey (fields : Obj) (k : String) (v : Json) : Obj :=
  match fields with
  | [] => [(k, v)]
  | (k', v') :: rest =>
      if k' = k then (k', v) :: rest else (k', v') :: setKey rest k v

/-- Python `d.get(k)` on a JSON value (None when not a dict). -/
def Json.get? (j : Json) (k : String) : Option Json :=
  match j with
  | .obj fields => lookupVal fields k
  | _ => none

/-- `d.get(k, default)`. -/
def getDefault (fields : Obj) (k : String) (d : Json) : Json :=
  (lookupVal fields k).getD d

def Json.isNull (j : Json) : Bool :=
  match j with
  | .null => true
  | _ => false

def Json.isObj (j : Json) : Bool :=
  match j with
  | .obj _ => true
  | _ => false

/-- Python truthiness of a decoded JSON value. -/
def truthy (j : Json) : Bool :=
  match j with
  | .null => false
  | .bool b => b
  | .num n => decide (n ≠ 0)
  | .str s => decide (s ≠ "")
  | .arr xs => !xs.isEmpty
  | .obj fs => !fs.isEmpty

/-- Python `isinstance(x, int)`; `bool` is a subclass of `int` in Python,
so booleans also pass the check. -/
def asPyInt? (j : Json) : Option Int :=
  match j with
  | .num n => some n
  | .bool b => some (if b then 1 else 0)
  | _ => none

/-- Python iteration `for x in v`: lists yield elements, strings yield
one-character strings, dicts yield their keys; other values raise. -/
def pyIter (j : Json) : Except String (List Json) :=
  match j with
  | .arr xs => .ok xs
  | .str s => .ok (s.toList.map fun c => .str (String.singleton c))
  | .obj fs => .ok (fs.map fun kv => .str kv.1)
  | _ => .error "TypeError: object is not iterable"

/-- Fold a fallible step over a list, stopping at the first error. -/
def foldE (f : σ → α → Except ε σ) (s : σ) (l : List α) : Except ε σ :=
  match l with
  | [] => .ok s
  | a :: rest =>
      match f s a with
      | .error e => .error e
      | .ok s' => foldE f s' rest

/-! Character-list implementations of the Python string operations the
logger uses (`strip`, `startswith`, slicing, `split`, `lower`, `upper`,
`endswith`).  They reduce well in the kernel, unlike the position-based
core `String` functions. -/

/-- ASCII whitespace stripped by Python `str.strip()`. -/
def pySpaceChar (c : Char) : Bool :=
  c = ' ' || c = '\t' || c = '\n' || c = '\r' || c = '\x0b' || c = '\x0c'

/-- Python `s.strip()`. -/
def pyStrip (s : String) : String :=
  String.mk (((s.data.dropWhile pySpaceChar).reverse.dropWhile pySpaceChar).reverse)

/-- Python `s.startswith(p)`. -/
def strStartsWith (s p : String) : Bool :=
  p.data.isPrefixOf s.data

/-- Python `s[n:]` (character slicing). -/
def strDropChars (s : String) (n : Nat) : String :=
  String.mk (s.data.drop n)

/-- Helper of `splitOnNl`: accumulate the current line (reversed). -/
def splitOnNlAux : List Char → List Char → List String
  | [], acc => [String.mk acc.reverse]
  | x :: xs, acc =>
      if x = '\n' then String.mk acc.reverse :: splitOnNlAux xs []
      else splitOnNlAux xs (x :: acc)

/-- Split a string on newline characters (Python `splitlines` for
newline-separated text; trailing carriage returns are later stripped). -/
def splitOnNl (s : String) : List String :=
  splitOnNlAux s.data []

/-- Python `str.lower()` on an ASCII character. -/
def pyLowerChar (c : Char) : Char :=
  if 'A' ≤ c && c ≤ 'Z' then Char.ofNat (c.toNat + 32) else c

/-- Python `s.lower()`. -/
def pyLower (s : String) : String :=
  String.mk (s.data.map pyLowerChar)

/-- Python `str.upper()` on an ASCII character. -/
def pyUpperChar (c : Char) : Char :=
  if 'a' ≤ c && c ≤ 'z' then Char.ofNat (c.toNat - 32) else c

/-- Python `s.upper()`. -/
def pyUpper (s : String) : String :=
  String.mk (s.data.map pyUpperChar)

/-- Python `s.endswith(p)`. -/
def strEndsWith (s p : String) : Bool :=
  p.data.reverse.isPrefixOf s.data.reverse

/-- `read_json`: parse JSON text, `None` on decode errors.  orjson maps a
JSON `null` payload to Python `None` as well, so callers cannot
distinguish a null document from a parse failure. -/
def read_json (decode : String → Option Json) (text : String) : Option Json :=
  match decode text with
  | some .null => none
  | o => o

/-- Substring test on character lists (Python `needle in hay`). -/
def containsSub (needle hay : List Char) : Bool :=
  match hay with
  | [] => needle.isEmpty
  | _ :: rest => needle.isPrefixOf hay || containsSub needle rest

/-- `is_event_stream`: substring test on the lowered content type. -/
def is_event_stream (content_type : String) : Bool :=
  containsSub "text/event-stream".data (pyLower content_type).data

/-- One step of `parse_sse_events` over the split lines of the body. -/
def parseLines (decode : String → Option Json) (lines : List String) : List Json :=
  match lines with
  | [] => []
  | raw :: rest =>
      let line := pyStrip raw
      if ¬ strStartsWith line "data:" then parseLines decode rest
      else
        let payload_text := pyStrip (strDropChars line 5)
        if payload_text = "" then parseLines decode rest
        else if payload_text = "[DONE]" then []
        else
          match read_json decode payload_text with
          | some (.obj fs) => Json.obj fs :: parseLines decode rest
          | _ => parseLines decode rest

/-- `parse_sse_events`: SSE body text to the list of JSON object events. -/
def parse_sse_events (decode : String → Option Json) (body_text : String) :
    List Json :=
  parseLines decode (splitOnNl body_text)

/-! ## Endpoint matching -/

structure EndpointSpec where
  name : String
  suffixes : List String
deriving Repr, DecidableEq

/-- `_normalize_path`: strip everything from the first question mark
(`path.split("?", 1)[0]`). -/
def _normalize_path (path : String) : String :=
  String.mk (path.data.takeWhile fun c => c ≠ '?')

structure EndpointRegistry where
  endpoints : List EndpointSpec

/-- `EndpointRegistry.match`. -/
def EndpointRegistry.matchEndpoint (r : EndpointRegistry) (path : String) :
    Option EndpointSpec :=
  let clean_path := _normalize_path path
  r.endpoints.find? fun endpoint =>
    endpoint.suffixes.any fun suffix => strEndsWith clean_path suffix

/-- `EndpointRegistry.supports`. -/
def EndpointRegistry.supports (r : EndpointRegistry) (path : String) : Bool :=
  (r.matchEndpoint path).isSome

def default_endpoint_registry : EndpointRegistry :=
  ⟨[⟨"chat.completions", ["/chat/completions"]⟩]⟩

/-! ## Storage routing (`src/log_storage.py`) -/

/-- A filesystem path, as its list of segments. -/
abbrev FSPath := List String

structure StoragePaths where
  input_path : FSPath
  output_path : FSPath
deriving Repr, DecidableEq

/-- Characters kept verbatim by `_safe_path_segment`
(`string.ascii_letters + string.digits + "-_."`). -/
def allowedSegmentChar (c : Char) : Bool :=
  c.isAlpha || c.isDigit || c = '-' || c = '_' || c = '.'

/-- Characters stripped from both ends (`.strip("._-")`). -/
def edgeStripChar (c : Char) : Bool :=
  c = '.' || c = '_' || c = '-'

/-- The cleaned character list before truncation: strip outer whitespace,
replace disallowed characters with underscores, strip `._-` from both
ends. -/
def cleanedSegment (value : String) : List Char :=
  let mapped := (pyStrip value).data.map fun c =>
    if allowedSegmentChar c then c else '_'
  ((mapped.dropWhile edgeStripChar).reverse.dropWhile edgeStripChar).reverse

/-- `_safe_path_segment`: clean, truncate to 120 characters, fall back to
"unknown" when empty. -/
def _safe_path_segment (value : String) : String :=
  let res := (cleanedSegment value).take 120
  if res.isEmpty then "unknown" else String.mk res

structure StorageRouter where
  data_dir : FSPath
  header_key : Option String

/-- `StorageRouter.__init__`: lower the header key, a falsy key becomes
`None`. -/
def StorageRouter.make (data_dir : FSPath)
    (header_key : Option String := some "x-batch-id") : StorageRouter :=
  ⟨data_dir,
    match header_key with
    | some k => if k = "" then none else some (pyLower k)
    | none => none⟩

/-- Case-insensitive header lookup (mitmproxy headers), defaulting to "". -/
def headerGet (headers : List (String × String)) (key : String) : String :=
  match headers.find? fun kv => pyLower kv.1 = key with
  | some kv => kv.2
  | none => ""

/-- `StorageRouter.resolve`. -/
def StorageRouter.resolve (r : StorageRouter)
    (headers : List (String × String)) : StoragePaths :=
  match r.header_key with
  | some key =>
      let header_value := headerGet headers key
      if header_value ≠ "" then
        let safe_value := _safe_path_segment header_value
        let base_dir := r.data_dir ++ ["requests", safe_value]
        ⟨base_dir ++ ["input.jsonl"], base_dir ++ ["output.jsonl"]⟩
      else
        ⟨r.data_dir ++ ["input.jsonl"], r.data_dir ++ ["output.jsonl"]⟩
  | none =>
      ⟨r.data_dir ++ ["input.jsonl"], r.data_dir ++ ["output.jsonl"]⟩

/-! ## Streamed-response aggregation (`aggregate_streamed_response`) -/

/-- The `id` / `type` overwrites at the top of `_merge_tool_call`. -/
def mergeIdType (target : Obj) (delta : Obj) : Obj :=
  let target :=
    match lookupVal delta "id" with
    | some v => setKey target "id" v
    | none => target
  match lookupVal delta "type" with
  | some v => setKey target "type" v
  | none => target

/-- `target.setdefault("function", {})`. -/
def ensureFn (target : Obj) : Obj :=
  if (lookupVal target "function").isSome then target
  else setKey target "function" (.obj [])

/-- `function = target["function"]` — aggregation only ever stores an
object here. -/
def fnObjOf (target : Obj) : Obj :=
  match lookupVal target "function" with
  | some (.obj fs) => fs
  | _ => []

/-- `function["arguments"] = function.get("arguments", "") + av`:
string concatenation, raising on non-string operands. -/
def concatArgs (fn : Obj) (av : Json) : Except String Obj :=
  match getDefault fn "arguments" (.str ""), av with
  | .str o, .str a => .ok (setKey fn "arguments" (.str (o ++ a)))
  | _, _ => .error "TypeError: can only concatenate str"

/-- `_merge_tool_call`: merge one streamed tool-call fragment into the
accumulator dict.  `id`, `type` and `function.name` overwrite;
`function.arguments` concatenates.  Python `"name" in x` on a non-dict
`function` payload is a substring / membership test for strings and
lists and a `TypeError` otherwise; a hit leads to indexing the non-dict
payload, which raises. -/
def _merge_tool_call (target : Obj) (delta : Obj) : Except String Obj :=
  let target := mergeIdType target delta
  match lookupVal delta "function" with
  | none => .ok target
  | some fv =>
      let target := ensureFn target
      let fn := fnObjOf target
      match fv with
      | .obj dfs =>
          let fn :=
            match lookupVal dfs "name" with
            | some nv => setKey fn "name" nv
            | none => fn
          match lookupVal dfs "arguments" with
          | none => .ok (setKey target "function" (.obj fn))
          | some av =>
              match concatArgs fn av with
              | .error e => .error e
              | .ok fn2 => .ok (setKey target "function" (.obj fn2))
      | .str s =>
          if containsSub "name".toList s.toList ||
             containsSub "arguments".toList s.toList then
            .error "TypeError: string indices must be integers"
          else .ok target
      | .arr xs =>
          if xs.any fun j =>
              match j with
              | .str t => t = "name" || t = "arguments"
              | _ => false then
            .error "TypeError: list indices must be integers"
          else .ok target
      | _ => .error "TypeError: argument is not a container"

/-- Per-choice accumulator state (`choices_state[index]`). -/
structure ChoiceState where
  index : Int
  role : Json
  content : String
  tool_calls : List Obj
  finish_reason : Json
deriving Repr

/-- The default accumulator inserted by `setdefault`. -/
def initChoice (i : Int) : ChoiceState :=
  ⟨i, .null, "", [], .null⟩

/-- First-match lookup in the choice-state association list. -/
def assocFind (st : List (Int × ChoiceState)) (i : Int) : Option ChoiceState :=
  match st with
  | [] => none
  | (j, d) :: rest => if j = i then some d else assocFind rest i

/-- Store a choice state: update the existing key in place, else append
(matching `dict.setdefault` insertion order). -/
def assocSet (st : List (Int × ChoiceState)) (i : Int) (c : ChoiceState) :
    List (Int × ChoiceState) :=
  match st with
  | [] => [(i, c)]
  | (j, d) :: rest =>
      if j = i then (j, c) :: rest else (j, d) :: assocSet rest i c

/-- One streamed tool-call fragment: `tool_call.get("index")`, pad the
list with empty accumulators while `len(tools) <= tool_index`, then merge
at `tools[tool_index]` (Python indexing: a negative index counts from the
end and raises `IndexError` when it stays out of range). -/
def processToolFrag (tools : List Obj) (tc : Json) : Except String (List Obj) :=
  match tc with
  | .obj tfs =>
      match (lookupVal tfs "index").bind asPyInt? with
      | none => .ok tools
      | some ti =>
          if 0 ≤ ti then
            let n := ti.toNat
            let padded := tools ++ List.replicate (n + 1 - tools.length) []
            match _merge_tool_call (padded.getD n []) tfs with
            | .error e => .error e
            | .ok merged => .ok (padded.set n merged)
          else
            let j : Int := (tools.length : Int) + ti
            if 0 ≤ j then
              match _merge_tool_call (tools.getD j.toNat []) tfs with
              | .error e => .error e
              | .ok merged => .ok (tools.set j.toNat merged)
            else .error "IndexError: list index out of range"
  | _ => .error "AttributeError: no attribute get"

/-- Aggregation state across events. -/
structure AggState where
  choices_state : List (Int × ChoiceState)
  usage : Option Json
deriving Repr

/-- The `finish_reason` update of one choice entry: overwrite with any
present non-null value. -/
def applyFinish (c : ChoiceState) (cfs : Obj) : ChoiceState :=
  match lookupVal cfs "finish_reason" with
  | some v => if v.isNull then c else { c with finish_reason := v }
  | none => c

/-- The `delta.role` update: overwrite with any present value. -/
def applyRole (c : ChoiceState) (dfs : Obj) : ChoiceState :=
  match lookupVal dfs "role" with
  | some v => { c with role := v }
  | none => c

/-- The `delta.content` update: append any present non-null value
(`str + str`; anything else raises). -/
def applyContent (c : ChoiceState) (dfs : Obj) : Except String ChoiceState :=
  match lookupVal dfs "content" with
  | some v =>
      if v.isNull then .ok c
      else
        match v with
        | .str s => .ok { c with content := c.content ++ s }
        | _ => .error "TypeError: can only concatenate str"
  | none => .ok c

/-- `delta.get("tool_calls", []) or []`. -/
def toolItemsOf (dfs : Obj) : Json :=
  let tcv := getDefault dfs "tool_calls" (.arr [])
  if truthy tcv then tcv else .arr []

/-- The per-choice body of the event loop, after the accumulator for the
entry's index has been fetched or created: apply `finish_reason`, `role`,
`content` and `tool_calls` updates from this entry. -/
def applyChoiceEntry (c : ChoiceState) (cfs : Obj) : Except String ChoiceState :=
  let c := applyFinish c cfs
  match getDefault cfs "delta" (.obj []) with
  | .obj dfs =>
      match applyContent (applyRole c dfs) dfs with
      | .error e => .error e
      | .ok c =>
          match pyIter (toolItemsOf dfs) with
          | .error e => .error e
          | .ok items =>
              match foldE processToolFrag c.tool_calls items with
              | .error e => .error e
              | .ok tools => .ok { c with tool_calls := tools }
  | _ => .ok c

/-- One entry of an event's `choices` array: skip entries without an
integer `index`, fetch-or-create the accumulator for the index, update
it, and store it back. -/
def processChoiceEntry (st : List (Int × ChoiceState)) (choice : Json) :
    Except String (List (Int × ChoiceState)) :=
  match choice with
  | .obj cfs =>
      match (lookupVal cfs "index").bind asPyInt? with
      | none => .ok st
      | some i =>
          match applyChoiceEntry ((assocFind st i).getD (initChoice i)) cfs with
          | .error e => .error e
          | .ok c => .ok (assocSet st i c)
  | _ => .error "AttributeError: no attribute get"

/-- One event of the stream: record the latest object-valued `usage`,
then process every entry of `choices`. -/
def processEvent (s : AggState) (event : Json) : Except String AggState :=
  match event with
  | .obj efs =>
      let usage' :=
        match lookupVal efs "usage" with
        | some (.obj ufs) => some (Json.obj ufs)
        | _ => s.usage
      match pyIter (getDefault efs "choices" (.arr [])) with
      | .error e => .error e
      | .ok citems =>
          match foldE processChoiceEntry s.choices_state citems with
          | .error e => .error e
          | .ok cst => .ok ⟨cst, usage'⟩
  | _ => .error "AttributeError: no attribute get"

/-- The fold of `processEvent` over the whole stream. -/
def aggStateOf (events : List Json) : Except String AggState :=
  foldE processEvent ⟨[], none⟩ events

/-- Finalized `message` dict for one choice. -/
def buildMessage (c : ChoiceState) : Obj :=
  let roleV := if truthy c.role then c.role else .str "assistant"
  let base := [("role", roleV),
               ("content", if c.content = "" then Json.null
                           else Json.str c.content)]
  if c.tool_calls.isEmpty then base
  else base ++ [("tool_calls", Json.arr (c.tool_calls.map Json.obj))]

/-- Finalization loop: `for index in sorted(choices_state)` builds one
choice payload per stored index, ascending. -/
def finalizeChoices (st : List (Int × ChoiceState)) : List Json :=
  (List.insertionSort (· ≤ ·) (st.map Prod.fst)).map fun i =>
    let state := (assocFind st i).getD (initChoice i)
    Json.obj [("index", .num i),
              ("message", .obj (buildMessage state)),
              ("finish_reason", state.finish_reason)]

/-- `aggregate_streamed_response`: `None` for an empty stream, otherwise
the single aggregated chat-completion object.  Python exceptions are the
`.error` results. -/
def aggregate_streamed_response (events : List Json) :
    Except String (Option Json) :=
  match events with
  | [] => .ok none
  | first :: _ =>
      match aggStateOf events with
      | .error e => .error e
      | .ok s =>
          let base : Obj :=
            [("id", (first.get? "id").getD .null),
             ("object", .str "chat.completion"),
             ("created", (first.get? "created").getD .null),
             ("model", (first.get? "model").getD .null),
             ("choices", .arr (finalizeChoices s.choices_state))]
          let final :=
            match s.usage with
            | some u => base ++ [("usage", u)]
            | none => base
          .ok (some (.obj final))

/-! ## Exchange correlation (`OpenAILogger.request` / `.response`) -/

/-- The request-side data the handler consumes from the flow. -/
structure RequestData where
  method : String
  path : String
  body : String
  headers : List (String × String)

/-- The observable effect of an accepted request: the payload stored in
the flow metadata and appended to the input log, and the resolved
storage paths stored for the response side. -/
structure RequestEffect where
  payload : Json
  paths : StoragePaths

/-- `_apply_preprocessors`: short-circuiting fold, `none` vetoes. -/
def _apply_preprocessors (payload : Json) (req : RequestData)
    (preprocessors : List (Json → RequestData → Option Json)) : Option Json :=
  match preprocessors with
  | [] => some payload
  | p :: rest =>
      match p payload req with
      | none => none
      | some updated => _apply_preprocessors updated req rest

/-- `OpenAILogger.request`: `none` is a silent skip (no record written, no
correlation state stored). -/
def OpenAILogger.request (decode : String → Option Json)
    (registry : EndpointRegistry) (router : StorageRouter)
    (preprocessors : List (Json → RequestData → Option Json))
    (req : RequestData) : Option RequestEffect :=
  if pyUpper req.method ≠ "POST" then none
  else if ¬ registry.supports req.path then none
  else if req.body = "" then none
  else
    match read_json decode req.body with
    | some (.obj pfs) =>
        match _apply_preprocessors (.obj pfs) req preprocessors with
        | none => none
        | some payload => some ⟨payload, router.resolve req.headers⟩
    | _ => none

/-- The response-side data the handler consumes from the flow. -/
structure ResponseData where
  hasRequestMeta : Bool
  storageMeta : Option StoragePaths
  hasResponse : Bool
  body : String
  contentType : String

/-- `OpenAILogger.response`: the produced write (destination, payload),
`none` when nothing is written; `.error` when aggregation raises. -/
def OpenAILogger.response (decode : String → Option Json)
    (rd : ResponseData) : Except String (Option (FSPath × Json)) :=
  if ¬ rd.hasRequestMeta then .ok none
  else if ¬ rd.hasResponse then .ok none
  else
    match rd.storageMeta with
    | none => .ok none
    | some storage_paths =>
        if rd.body = "" then .ok none
        else if is_event_stream rd.contentType then
          match aggregate_streamed_response (parse_sse_events decode rd.body) with
          | .error e => .error e
          | .ok none => .ok none
          | .ok (some payload) => .ok (some (storage_paths.output_path, payload))
        else
          match read_json decode rd.body with
          | none => .ok none
          | some payload => .ok (some (storage_paths.output_path, payload))

/-! ## Derived views of the aggregation, used to state its properties -/

/-- The integer index an entry of a `choices` array addresses, if any. -/
def entryIndex (c : Json) : Option Int :=
  match c with
  | .obj cfs => (lookupVal cfs "index").bind asPyInt?
  | _ => none

/-- The entries of an event's `choices` array (empty when absent or not
an array). -/
def choiceEntriesOf (e : Json) : List Json :=
  match e.get? "choices" with
  | some (.arr cs) => cs
  | _ => []

/-- All choice entries across the stream addressed to index `i`, in
arrival order. -/
def entriesAt (events : List Json) (i : Int) : List Json :=
  events.flatMap fun e =>
    (choiceEntriesOf e).filter fun c => decide (entryIndex c = some i)

/-- Total version of `processToolFrag` agreeing with it on success. -/
def processToolFragP (tools : List Obj) (tc : Json) : List Obj :=
  match processToolFrag tools tc with
  | .ok r => r
  | .error _ => tools

/-- The total version of `applyContent`, skipping on the raising case. -/
def applyContentP (c : ChoiceState) (dfs : Obj) : ChoiceState :=
  match lookupVal dfs "content" with
  | some (.str s) => { c with content := c.content ++ s }
  | _ => c

/-- Total replay of one choice entry on a single accumulator, agreeing
with `applyChoiceEntry` whenever the latter succeeds. -/
def entryApplyP (c : ChoiceState) (e : Json) : ChoiceState :=
  match e with
  | .obj cfs =>
      let c := applyFinish c cfs
      match getDefault cfs "delta" (.obj []) with
      | .obj dfs =>
          let c := applyContentP (applyRole c dfs) dfs
          let items := ((pyIter (toolItemsOf dfs)).toOption).getD []
          { c with tool_calls := items.foldl processToolFragP c.tool_calls }
      | _ => c
  | _ => c

/-- The accumulator the aggregation holds for index `i` after replaying
a selection of entries on top of an optional prior accumulator. -/
def replayFind (c? : Option ChoiceState) (i : Int) (sel : List Json) :
    Option ChoiceState :=
  match c?, sel with
  | none, [] => none
  | c?, sel => some (sel.foldl entryApplyP (c?.getD (initChoice i)))

/-- The `delta.content` string fragment one choice entry contributes. -/
def contentFragOfEntry (e : Json) : Option String :=
  match e with
  | .obj cfs =>
      match getDefault cfs "delta" (.obj []) with
      | .obj dfs =>
          match lookupVal dfs "content" with
          | some (.str s) => some s
          | _ => none
      | _ => none
  | _ => none

/-- All content fragments addressed to choice index `i`, in arrival
order. -/
def contentFrags (events : List Json) (i : Int) : List String :=
  (entriesAt events i).filterMap contentFragOfEntry

/-- Concatenation of a list of strings, in order. -/
def concatAll (l : List String) : String :=
  match l with
  | [] => ""
  | s :: rest => s ++ concatAll rest

/-- The `delta.role` value one choice entry supplies (if the key is
present, whatever the value). -/
def roleOfEntry (e : Json) : Option Json :=
  match e with
  | .obj cfs =>
      match getDefault cfs "delta" (.obj []) with
      | .obj dfs => lookupVal dfs "role"
      | _ => none
  | _ => none

/-- The non-null `finish_reason` one choice entry supplies. -/
def finishOfEntry (e : Json) : Option Json :=
  match e with
  | .obj cfs =>
      match lookupVal cfs "finish_reason" with
      | some v => if v.isNull then none else some v
      | none => none
  | _ => none

/-- Last element of a list, with a default. -/
def lastD (l : List α) (d : α) : α :=
  match l with
  | [] => d
  | a :: rest => lastD rest a

/-- The latest object-valued `usage` across the stream, on top of a
prior snapshot. -/
def lastObjUsageD (events : List Json) (acc : Option Json) : Option Json :=
  match events with
  | [] => acc
  | e :: rest =>
      lastObjUsageD rest
        (match e.get? "usage" with
         | some (.obj ufs) => some (.obj ufs)
         | _ => acc)

/-- The latest object-valued `usage` across the stream, if any. -/
def lastObjUsage (events : List Json) : Option Json :=
  lastObjUsageD events none

/-- The `choices` array of an aggregated response. -/
def choicesOfResponse (r : Json) : List Json :=
  match r.get? "choices" with
  | some (.arr cs) => cs
  | _ => []

def messageContentOf (c : Json) : Option Json :=
  (c.get? "message").bind fun m => m.get? "content"

def messageRoleOf (c : Json) : Option Json :=
  (c.get? "message").bind fun m => m.get? "role"

def messageToolCallsOf (c : Json) : Option Json :=
  (c.get? "message").bind fun m => m.get? "tool_calls"

/-- A field of a tool-call accumulator's `function` sub-dict. -/
def toolFnField (t : Obj) (k : String) : Option Json :=
  match lookupVal t "function" with
  | some (.obj fs) => lookupVal fs k
  | _ => none

/-- The accumulated arguments string of a tool-call accumulator
(`function.get("arguments", "")`, empty when absent). -/
def toolArgsStr (t : Obj) : String :=
  match toolFnField t "arguments" with
  | some (.str s) => s
  | _ => ""

/-- The accumulator's `function` slot is absent or an object, as is true
of every accumulator the aggregation builds. -/
def fnObjOrAbsent (t : Obj) : Bool :=
  match lookupVal t "function" with
  | none => true
  | some (.obj _) => true
  | some _ => false

/-! ## Well-formedness: the event shapes the aggregation accepts -/

/-- The fragment's `function` field is absent, or a dict whose
`arguments` (if present) is a string. -/
def wfToolFragFn (tfs : Obj) : Bool :=
  match lookupVal tfs "function" with
  | none => true
  | some (.obj dfs) =>
      match lookupVal dfs "arguments" with
      | none => true
      | some (.str _) => true
      | some _ => false
  | some _ => false

/-- A streamed tool-call fragment the aggregation can process: a dict
whose integer index (if any) is non-negative, whose `function` (if
present) is a dict, and whose `function.arguments` (if present) is a
string. -/
def wfToolFrag (t : Json) : Bool :=
  match t with
  | .obj tfs =>
      (match (lookupVal tfs "index").bind asPyInt? with
       | none => true
       | some n => decide (0 ≤ n)) && wfToolFragFn tfs
  | _ => false

/-- A delta the aggregation can process: non-dict deltas are skipped;
dict deltas need a null-or-string `content` and an absent, null or
well-formed-list `tool_calls`. -/
def wfDelta (d : Json) : Bool :=
  match d with
  | .obj dfs =>
      (match lookupVal dfs "content" with
       | none => true
       | some .null => true
       | some (.str _) => true
       | some _ => false) &&
      (match lookupVal dfs "tool_calls" with
       | none => true
       | some .null => true
       | some (.arr ts) => ts.all wfToolFrag
       | some _ => false)
  | _ => true

/-- A `choices` entry the aggregation can process. -/
def wfChoice (c : Json) : Bool :=
  match c with
  | .obj cfs => wfDelta (getDefault cfs "delta" (.obj []))
  | _ => false

/-- An event the aggregation can process: a JSON object whose `choices`
is absent or a list of well-formed entries. -/
def wfEvent (e : Json) : Bool :=
  match e with
  | .obj efs =>
      match lookupVal efs "choices" with
      | none => true
      | some (.arr cs) => cs.all wfChoice
      | some _ => false
  | _ => false

/-- A `function` sub-dict whose `arguments` is absent or a string. -/
def wfFnArgs (fn : Obj) : Bool :=
  match lookupVal fn "arguments" with
  | none => true
  | some (.str _) => true
  | some _ => false

/-- Invariant of stored tool-call accumulators: `function` absent or an
object whose `arguments` is absent or a string. -/
def wfToolAcc (t : Obj) : Bool :=
  match lookupVal t "function" with
  | none => true
  | some (.obj fs) =>
      match lookupVal fs "arguments" with
      | none => true
      | some (.str _) => true
      | some _ => false
  | some _ => false

def wfChoiceState (c : ChoiceState) : Bool :=
  c.tool_calls.all wfToolAcc

/-- The JSON object parsed from one SSE line, when the line is a data
line carrying a JSON object payload (and not the terminator). -/
def dataObjOf (decode : String → Option Json) (raw : String) : Option Json :=
  let line := pyStrip raw
  if ¬ strStartsWith line "data:" then none
  else
    let payload_text := pyStrip (strDropChars line 5)
    if payload_text = "" then none
    else if payload_text = "[DONE]" then none
    else
      match read_json decode payload_text with
      | some (.obj fs) => some (.obj fs)
      | _ => none

/-- Whether an SSE line is the `data: [DONE]` terminator. -/
def isDoneLine (raw : String) : Bool :=
  strStartsWith (pyStrip raw) "data:" && ((pyStrip (strDropChars (pyStrip raw) 5)) = "[DONE]")

/-! ## Concrete inputs for witnesses and counterexamples -/

/-- Event with a tool-call fragment at integer index `-1`. -/
def evNegToolIdx : Json :=
  .obj [("choices", .arr [.obj [("index", .num 0),
    ("delta", .obj [("tool_calls",
      .arr [.obj [("index", .num (-1)), ("id", .str "x")]])])]])]

/-- Event whose `choices` field is the number 5. -/
def evBadChoices : Json :=
  .obj [("choices", .num 5)]

/-- Single-choice event with no delta at all. -/
def evIndexOnly : Json :=
  .obj [("choices", .arr [.obj [("index", .num 0)]])]

/-- First Hello event: role plus content fragment "Hel" for choice 0. -/
def evHelloA : Json :=
  .obj [("id", .str "c1"), ("created", .num 1), ("model", .str "m"),
    ("choices", .arr [.obj [("index", .num 0),
      ("delta", .obj [("role", .str "assistant"), ("content", .str "Hel")])]])]

/-- Second Hello event: content fragment "lo" and a finish reason. -/
def evHelloB : Json :=
  .obj [("choices", .arr [.obj [("index", .num 0),
    ("delta", .obj [("content", .str "lo")]),
    ("finish_reason", .str "stop")]])]

/-- Event delivering content for choice index 1. -/
def evIdxOne : Json :=
  .obj [("choices", .arr [.obj [("index", .num 1),
    ("delta", .obj [("content", .str "b")])]])]

/-- Event delivering content for choice index 0. -/
def evIdxZero : Json :=
  .obj [("choices", .arr [.obj [("index", .num 0),
    ("delta", .obj [("content", .str "a")])]])]

/-- Event carrying a first usage snapshot. -/
def evUsageA : Json :=
  .obj [("usage", .obj [("total_tokens", .num 1)]), ("choices", .arr [])]

/-- Event carrying a second usage snapshot. -/
def evUsageB : Json :=
  .obj [("usage", .obj [("total_tokens", .num 7)])]

/-- Event setting role "user" for choice 0. -/
def evRoleUser : Json :=
  .obj [("choices", .arr [.obj [("index", .num 0),
    ("delta", .obj [("role", .str "user")])]])]

/-- Event overwriting the role of choice 0 with null. -/
def evRoleNull : Json :=
  .obj [("choices", .arr [.obj [("index", .num 0),
    ("delta", .obj [("role", .null)])]])]

/-- A decoder mapping only the text "null" to JSON null. -/
def decodeNullOnly : String → Option Json :=
  fun s => if s = "null" then some .null else none

/-- A correlated non-stream response whose body is the text "null". -/
def rdNullBody : ResponseData :=
  ⟨true, some ⟨["data", "input.jsonl"], ["data", "output.jsonl"]⟩,
   true, "null", "application/json"⟩

/-- A 121-character batch header: 119 letters, a dash, a letter. -/
def longHeader : String :=
  String.mk (List.replicate 119 'a') ++ "-a"

/-! ## Basic lemmas about dict and state operations -/

theorem lookupVal_setKey_self (fs : Obj) (k : String) (v : Json) :
    lookupVal (setKey fs k v) k = some v := by
  induction fs with
  | nil => simp [setKey, lookupVal]
  | cons kv rest ih =>
      obtain ⟨k', v'⟩ := kv
      by_cases h : k' = k <;> simp [setKey, lookupVal, h, ih]

theorem lookupVal_setKey_ne (fs : Obj) (k k' : String) (v : Json)
    (h : k' ≠ k) : lookupVal (setKey fs k v) k' = lookupVal fs k' := by
  induction fs with
  | nil => simp [setKey, lookupVal, Ne.symm h]
  | cons kv rest ih =>
      obtain ⟨k0, v0⟩ := kv
      by_cases h0 : k0 = k
      · subst h0
        simp [setKey, lookupVal, Ne.symm h, h, ih]
      · by_cases h1 : k0 = k' <;> simp [setKey, lookupVal, h0, h1, h, ih]

theorem lookupVal_append (l1 l2 : Obj) (k : String) :
    lookupVal (l1 ++ l2) k =
      match lookupVal l1 k with
      | some v => some v
      | none => lookupVal l2 k := by
  induction l1 with
  | nil => simp [lookupVal]
  | cons kv rest ih =>
      obtain ⟨k0, v0⟩ := kv
      by_cases h : k0 = k <;> simp [lookupVal, h, ih]

theorem assocFind_assocSet (st : List (Int × ChoiceState)) (i : Int)
    (c : ChoiceState) (j : Int) :
    assocFind (assocSet st i c) j = if j = i then some c else assocFind st j := by
  induction st with
  | nil =>
      by_cases h : j = i <;> simp [assocSet, assocFind, h, Ne.symm]
  | cons p rest ih =>
      obtain ⟨k, d⟩ := p
      by_cases hk : k = i
      · subst hk
        by_cases hj : j = k
        · simp [assocSet, assocFind, hj]
        · have hkj : ¬ k = j := fun h => hj h.symm
          simp [assocSet, assocFind, hj, hkj]
      · by_cases hj : j = k
        · subst hj
          have : ¬ j = i := fun h => hk (h ▸ rfl)
          simp [assocSet, assocFind, hk, this]
        · have hkj : ¬ k = j := fun h => hj h.symm
          simp [assocSet, assocFind, hk, hj, hkj, ih]

theorem assocSet_keys (st : List (Int × ChoiceState)) (i : Int)
    (c : ChoiceState) :
    (assocSet st i c).map Prod.fst =
      if i ∈ st.map Prod.fst then st.map Prod.fst
      else st.map Prod.fst ++ [i] := by
  induction st with
  | nil => simp [assocSet]
  | cons p rest ih =>
      obtain ⟨k, d⟩ := p
      by_cases hk : k = i
      · subst hk
        simp [assocSet]
      · by_cases hm : i ∈ rest.map Prod.fst <;>
          simp [assocSet, hk, hm, Ne.symm hk, ih]

theorem assocSet_keys_nodup (st : List (Int × ChoiceState)) (i : Int)
    (c : ChoiceState) (h : (st.map Prod.fst).Nodup) :
    ((assocSet st i c).map Prod.fst).Nodup := by
  rw [assocSet_keys]
  by_cases hm : i ∈ st.map Prod.fst
  · simpa [hm] using h
  · simp only [hm, if_false]
    exact List.Nodup.append h (List.nodup_singleton i)
      (by simpa [List.disjoint_singleton] using hm)

theorem assocFind_of_mem_keys (st : List (Int × ChoiceState)) (i : Int)
    (h : i ∈ st.map Prod.fst) : ∃ c, assocFind st i = some c := by
  induction st with
  | nil => simp at h
  | cons p rest ih =>
      obtain ⟨k, d⟩ := p
      by_cases hk : k = i
      · exact ⟨d, by simp [assocFind, hk]⟩
      · have : i ∈ rest.map Prod.fst := by
          simpa [Ne.symm hk] using h
        obtain ⟨c, hc⟩ := ih this
        exact ⟨c, by simp [assocFind, hk, hc]⟩

/-! ## foldE lemmas -/

theorem foldE_nil (f : σ → α → Except ε σ) (s : σ) :
    foldE f s [] = .ok s := rfl

theorem foldE_cons (f : σ → α → Except ε σ) (s : σ) (a : α) (l : List α) :
    foldE f s (a :: l) =
      match f s a with
      | .error e => .error e
      | .ok s' => foldE f s' l := rfl

/-- A step-wise invariant survives a successful `foldE`. -/
theorem foldE_invariant {f : σ → α → Except ε σ} {P : σ → Prop}
    (hstep : ∀ s a s', P s → f s a = .ok s' → P s')
    {s s' : σ} {l : List α} (hs : P s) (h : foldE f s l = .ok s') : P s' := by
  induction l generalizing s with
  | nil => cases h; exact hs
  | cons a rest ih =>
      rw [foldE_cons] at h
      cases hfa : f s a with
      | error e => rw [hfa] at h; cases h
      | ok s1 =>
          rw [hfa] at h
          exact ih (hstep s a s1 hs hfa) h

/-- A successful `foldE` equals the fold of any total function that
agrees with the step on success. -/
theorem foldE_eq_foldl {f : σ → α → Except ε σ} {g : σ → α → σ}
    (hag : ∀ s a s', f s a = .ok s' → g s a = s')
    {s s' : σ} {l : List α} (h : foldE f s l = .ok s') :
    s' = l.foldl g s := by
  induction l generalizing s with
  | nil => cases h; rfl
  | cons a rest ih =>
      rw [foldE_cons] at h
      cases hfa : f s a with
      | error e => rw [hfa] at h; cases h
      | ok s1 =>
          rw [hfa] at h
          simpa [List.foldl_cons, hag s a s1 hfa] using ih h

/-! ## Replay lemmas: characterizing the per-index accumulator -/

theorem processToolFragP_eq (tools : List Obj) (tc : Json) (tools' : List Obj)
    (h : processToolFrag tools tc = .ok tools') :
    processToolFragP tools tc = tools' := by
  simp [processToolFragP, h]

theorem applyContent_eq (c : ChoiceState) (dfs : Obj) (c' : ChoiceState)
    (h : applyContent c dfs = .ok c') : applyContentP c dfs = c' := by
  unfold applyContent at h
  unfold applyContentP
  cases hc : lookupVal dfs "content" with
  | none => rw [hc] at h; cases h; rfl
  | some v =>
      rw [hc] at h
      cases v with
      | null => simp only [Json.isNull, if_pos] at h; cases h; rfl
      | str s =>
          simp only [Json.isNull, Bool.false_eq_true, if_false] at h
          cases h; rfl
      | bool b => simp only [Json.isNull, Bool.false_eq_true, if_false] at h; cases h
      | num n => simp only [Json.isNull, Bool.false_eq_true, if_false] at h; cases h
      | arr xs => simp only [Json.isNull, Bool.false_eq_true, if_false] at h; cases h
      | obj fs => simp only [Json.isNull, Bool.false_eq_true, if_false] at h; cases h

theorem applyChoiceEntry_eq (c : ChoiceState) (cfs : Obj) (c' : ChoiceState)
    (h : applyChoiceEntry c cfs = .ok c') : entryApplyP c (.obj cfs) = c' := by
  unfold applyChoiceEntry at h
  unfold entryApplyP
  cases hd : getDefault cfs "delta" (.obj []) with
  | obj dfs =>
      simp only [hd] at h ⊢
      cases hac : applyContent (applyRole (applyFinish c cfs) dfs) dfs with
      | error e0 => simp only [hac] at h; cases h
      | ok c1 =>
          simp only [hac] at h
          cases hit : pyIter (toolItemsOf dfs) with
          | error e0 => simp only [hit] at h; cases h
          | ok items =>
              simp only [hit] at h
              cases hfe : foldE processToolFrag c1.tool_calls items with
              | error e0 => simp only [hfe] at h; cases h
              | ok tools =>
                  simp only [hfe, Except.ok.injEq] at h
                  subst h
                  rw [applyContent_eq _ _ _ hac]
                  simp [hit, Except.toOption,
                    foldE_eq_foldl (fun s a s' => processToolFragP_eq s a s') hfe]
  | null => simp only [hd] at h ⊢; cases h; rfl
  | bool b => simp only [hd] at h ⊢; cases h; rfl
  | num n => simp only [hd] at h ⊢; cases h; rfl
  | str s => simp only [hd] at h ⊢; cases h; rfl
  | arr xs => simp only [hd] at h ⊢; cases h; rfl

theorem processChoiceEntry_find (st : List (Int × ChoiceState)) (e : Json)
    (st' : List (Int × ChoiceState)) (h : processChoiceEntry st e = .ok st')
    (i : Int) :
    assocFind st' i =
      if entryIndex e = some i then
        some (entryApplyP ((assocFind st i).getD (initChoice i)) e)
      else assocFind st i := by
  cases e with
  | obj cfs =>
      simp only [processChoiceEntry] at h
      cases hidx : (lookupVal cfs "index").bind asPyInt? with
      | none =>
          simp only [hidx] at h
          cases h
          simp [entryIndex, hidx]
      | some j =>
          simp only [hidx] at h
          cases happ : applyChoiceEntry ((assocFind st j).getD (initChoice j)) cfs with
          | error e0 => simp only [happ] at h; cases h
          | ok c' =>
              simp only [happ, Except.ok.injEq] at h
              subst h
              rw [assocFind_assocSet]
              by_cases hji : j = i
              · subst hji
                simp [entryIndex, hidx, applyChoiceEntry_eq _ _ _ happ]
              · have hij : ¬ i = j := fun hh => hji hh.symm
                simp [entryIndex, hidx, hji, hij]
  | null => cases h
  | bool b => cases h
  | num n => cases h
  | str s => cases h
  | arr xs => cases h

theorem replayFind_nil (c? : Option ChoiceState) (i : Int) :
    replayFind c? i [] = c? := by
  cases c? <;> rfl

theorem replayFind_some (c : ChoiceState) (i : Int) (sel : List Json) :
    replayFind (some c) i sel = some (sel.foldl entryApplyP c) := by
  cases sel <;> rfl

theorem replayFind_cons (c? : Option ChoiceState) (i : Int) (a : Json)
    (sel : List Json) :
    replayFind c? i (a :: sel) =
      some ((a :: sel).foldl entryApplyP (c?.getD (initChoice i))) := by
  cases c? <;> rfl

theorem replayFind_append (c? : Option ChoiceState) (i : Int)
    (s1 s2 : List Json) :
    replayFind (replayFind c? i s1) i s2 = replayFind c? i (s1 ++ s2) := by
  cases c? with
  | some c => simp [replayFind_some, List.foldl_append]
  | none =>
      cases s1 with
      | nil => simp [replayFind_nil]
      | cons a t =>
          rw [replayFind_cons, replayFind_some, List.cons_append, replayFind_cons]
          simp [List.foldl_append]

theorem foldEntries_find (l : List Json) (st st' : List (Int × ChoiceState))
    (h : foldE processChoiceEntry st l = .ok st') (i : Int) :
    assocFind st' i =
      replayFind (assocFind st i) i
        (l.filter fun c => decide (entryIndex c = some i)) := by
  induction l generalizing st with
  | nil => cases h; simp [replayFind_nil]
  | cons a rest ih =>
      rw [foldE_cons] at h
      cases hpa : processChoiceEntry st a with
      | error e => rw [hpa] at h; cases h
      | ok st1 =>
          rw [hpa] at h
          have hfind := processChoiceEntry_find st a st1 hpa i
          by_cases hI : entryIndex a = some i

          · rw [if_pos hI] at hfind
            rw [List.filter_cons_of_pos (by simpa using hI)]
            rw [ih st1 h, hfind, replayFind_some, replayFind_cons]
            simp [List.foldl_cons]
          · rw [if_neg hI] at hfind
            rw [List.filter_cons_of_neg (by simpa using hI)]
            rw [ih st1 h, hfind]

theorem processEvent_find (s : AggState) (e : Json) (s' : AggState)
    (h : processEvent s e = .ok s') (i : Int) :
    assocFind s'.choices_state i =
      replayFind (assocFind s.choices_state i) i
        ((choiceEntriesOf e).filter fun c => decide (entryIndex c = some i)) := by
  cases e with
  | obj efs =>
      simp only [processEvent] at h
      cases hch : lookupVal efs "choices" with
      | none =>
          simp only [getDefault, hch, Option.getD, pyIter] at h
          rw [foldE_nil] at h
          cases h
          simp [choiceEntriesOf, Json.get?, hch, replayFind_nil]
      | some v =>
          cases v with
          | arr cs =>
              simp only [getDefault, hch, Option.getD, pyIter] at h
              cases hfe : foldE processChoiceEntry s.choices_state cs with
              | error e0 => rw [hfe] at h; cases h
              | ok cst =>
                  rw [hfe] at h
                  cases h
                  simp only [choiceEntriesOf, Json.get?, hch]
                  exact foldEntries_find cs _ _ hfe i
          | str str0 =>
              simp only [getDefault, hch, Option.getD, pyIter] at h
              cases hsl : str0.toList with
              | nil =>
                  rw [hsl] at h
                  simp only [List.map_nil, foldE_nil] at h
                  cases h
                  simp [choiceEntriesOf, Json.get?, hch, replayFind_nil]
              | cons c0 cs0 =>
                  rw [hsl] at h
                  simp only [List.map_cons, foldE_cons, processChoiceEntry] at h
                  cases h
          | obj fs0 =>
              simp only [getDefault, hch, Option.getD, pyIter] at h
              cases fs0 with
              | nil =>
                  simp only [List.map_nil, foldE_nil] at h
                  cases h
                  simp [choiceEntriesOf, Json.get?, hch, replayFind_nil]
              | cons kv rest0 =>
                  simp only [List.map_cons, foldE_cons, processChoiceEntry] at h
                  cases h
          | null => simp only [getDefault, hch, Option.getD, pyIter] at h; cases h
          | bool b => simp only [getDefault, hch, Option.getD, pyIter] at h; cases h
          | num n => simp only [getDefault, hch, Option.getD, pyIter] at h; cases h
  | null => cases h
  | bool b => cases h
  | num n => cases h
  | str s0 => cases h
  | arr xs => cases h

theorem foldEvents_find (es : List Json) (s s' : AggState)
    (h : foldE processEvent s es = .ok s') (i : Int) :
    assocFind s'.choices_state i =
      replayFind (assocFind s.choices_state i) i (entriesAt es i) := by
  induction es generalizing s with
  | nil => cases h; simp [entriesAt, replayFind_nil]
  | cons e rest ih =>
      rw [foldE_cons] at h
      cases hpe : processEvent s e with
      | error e0 => rw [hpe] at h; cases h
      | ok s1 =>
          rw [hpe] at h
          have hsplit : entriesAt (e :: rest) i =
              ((choiceEntriesOf e).filter fun c => decide (entryIndex c = some i))
                ++ entriesAt rest i := by
            simp [entriesAt, List.flatMap_cons]
          rw [ih s1 h, processEvent_find s e s1 hpe i, replayFind_append, hsplit]

theorem aggStateOf_find (events : List Json) (s : AggState)
    (h : aggStateOf events = .ok s) (i : Int) :
    assocFind s.choices_state i = replayFind none i (entriesAt events i) := by
  have := foldEvents_find events ⟨[], none⟩ s h i
  simpa [assocFind] using this

/-! ## Projections of the replay on a single accumulator -/

theorem applyFinish_content (c : ChoiceState) (cfs : Obj) :
    (applyFinish c cfs).content = c.content := by
  unfold applyFinish
  split
  · split <;> rfl
  · rfl

theorem applyFinish_role (c : ChoiceState) (cfs : Obj) :
    (applyFinish c cfs).role = c.role := by
  unfold applyFinish
  split
  · split <;> rfl
  · rfl

theorem applyRole_content (c : ChoiceState) (dfs : Obj) :
    (applyRole c dfs).content = c.content := by
  unfold applyRole
  split <;> rfl

theorem applyRole_finish (c : ChoiceState) (dfs : Obj) :
    (applyRole c dfs).finish_reason = c.finish_reason := by
  unfold applyRole
  split <;> rfl

theorem applyContentP_role (c : ChoiceState) (dfs : Obj) :
    (applyContentP c dfs).role = c.role := by
  unfold applyContentP
  split <;> rfl

theorem applyContentP_finish (c : ChoiceState) (dfs : Obj) :
    (applyContentP c dfs).finish_reason = c.finish_reason := by
  unfold applyContentP
  split <;> rfl

theorem entryApplyP_content (c : ChoiceState) (e : Json) :
    (entryApplyP c e).content = c.content ++ (contentFragOfEntry e).getD "" := by
  cases e with
  | obj cfs =>
      unfold entryApplyP contentFragOfEntry
      cases hd : getDefault cfs "delta" (.obj []) with
      | obj dfs =>
          simp only [hd]
          show (applyContentP (applyRole (applyFinish c cfs) dfs) dfs).content = _
          unfold applyContentP
          cases hc : lookupVal dfs "content" with
          | none => simp [applyRole_content, applyFinish_content]
          | some v =>
              cases v <;>
                simp [applyRole_content, applyFinish_content]
      | null => simp [hd, applyFinish_content]
      | bool b => simp [hd, applyFinish_content]
      | num n => simp [hd, applyFinish_content]
      | str s => simp [hd, applyFinish_content]
      | arr xs => simp [hd, applyFinish_content]
  | null => simp [entryApplyP, contentFragOfEntry]
  | bool b => simp [entryApplyP, contentFragOfEntry]
  | num n => simp [entryApplyP, contentFragOfEntry]
  | str s => simp [entryApplyP, contentFragOfEntry]
  | arr xs => simp [entryApplyP, contentFragOfEntry]

theorem entryApplyP_role (c : ChoiceState) (e : Json) :
    (entryApplyP c e).role =
      match roleOfEntry e with
      | some v => v
      | none => c.role := by
  cases e with
  | obj cfs =>
      unfold entryApplyP roleOfEntry
      cases hd : getDefault cfs "delta" (.obj []) with
      | obj dfs =>
          simp only [hd]
          show (applyContentP (applyRole (applyFinish c cfs) dfs) dfs).role = _
          rw [applyContentP_role]
          unfold applyRole
          cases hr : lookupVal dfs "role" with
          | none => simp [applyFinish_role]
          | some v => simp
      | null => simp [hd, applyFinish_role]
      | bool b => simp [hd, applyFinish_role]
      | num n => simp [hd, applyFinish_role]
      | str s => simp [hd, applyFinish_role]
      | arr xs => simp [hd, applyFinish_role]
  | null => simp [entryApplyP, roleOfEntry]
  | bool b => simp [entryApplyP, roleOfEntry]
  | num n => simp [entryApplyP, roleOfEntry]
  | str s => simp [entryApplyP, roleOfEntry]
  | arr xs => simp [entryApplyP, roleOfEntry]

theorem entryApplyP_finish (c : ChoiceState) (e : Json) :
    (entryApplyP c e).finish_reason =
      match finishOfEntry e with
      | some v => v
      | none => c.finish_reason := by
  cases e with
  | obj cfs =>
      unfold entryApplyP finishOfEntry
      have hfin : (applyFinish c cfs).finish_reason =
          match
            match lookupVal cfs "finish_reason" with
            | some v => if v.isNull then none else some v
            | none => none
          with
          | some v => v
          | none => c.finish_reason := by
        unfold applyFinish
        cases hv : lookupVal cfs "finish_reason" with
        | none => simp
        | some v =>
            by_cases hn : v.isNull <;> simp [hn]
      cases hd : getDefault cfs "delta" (.obj []) with
      | obj dfs =>
          simp only [hd]
          show (applyContentP (applyRole (applyFinish c cfs) dfs) dfs).finish_reason = _
          rw [applyContentP_finish, applyRole_finish, hfin]
      | null => simp only [hd]; exact hfin
      | bool b => simp only [hd]; exact hfin
      | num n => simp only [hd]; exact hfin
      | str s => simp only [hd]; exact hfin
      | arr xs => simp only [hd]; exact hfin
  | null => simp [entryApplyP, finishOfEntry]
  | bool b => simp [entryApplyP, finishOfEntry]
  | num n => simp [entryApplyP, finishOfEntry]
  | str s => simp [entryApplyP, finishOfEntry]
  | arr xs => simp [entryApplyP, finishOfEntry]

/-! ## Fold-level characterizations of the per-choice accumulator -/

theorem foldl_entryApplyP_content (sel : List Json) (c : ChoiceState) :
    (sel.foldl entryApplyP c).content =
      c.content ++ concatAll (sel.filterMap contentFragOfEntry) := by
  induction sel generalizing c with
  | nil => simp [concatAll]
  | cons a rest ih =>
      simp only [List.foldl_cons]
      rw [ih, entryApplyP_content]
      cases hfrag : contentFragOfEntry a with
      | none => simp [List.filterMap_cons, hfrag]
      | some s =>
          simp [List.filterMap_cons, hfrag, concatAll, String.append_assoc]

theorem foldl_entryApplyP_role (sel : List Json) (c : ChoiceState) :
    (sel.foldl entryApplyP c).role =
      lastD (sel.filterMap roleOfEntry) c.role := by
  induction sel generalizing c with
  | nil => simp [lastD]
  | cons a rest ih =>
      simp only [List.foldl_cons]
      rw [ih]
      cases hrole : roleOfEntry a with
      | none => simp [List.filterMap_cons, hrole, entryApplyP_role]
      | some v => simp [List.filterMap_cons, hrole, entryApplyP_role, lastD]

theorem foldl_entryApplyP_finish (sel : List Json) (c : ChoiceState) :
    (sel.foldl entryApplyP c).finish_reason =
      lastD (sel.filterMap finishOfEntry) c.finish_reason := by
  induction sel generalizing c with
  | nil => simp [lastD]
  | cons a rest ih =>
      simp only [List.foldl_cons]
      rw [ih]
      cases hfin : finishOfEntry a with
      | none => simp [List.filterMap_cons, hfin, entryApplyP_finish]
      | some v => simp [List.filterMap_cons, hfin, entryApplyP_finish, lastD]

/-! ## Usage tracking -/

theorem processEvent_usage (s : AggState) (e : Json) (s' : AggState)
    (h : processEvent s e = .ok s') :
    s'.usage =
      match e.get? "usage" with
      | some (.obj ufs) => some (Json.obj ufs)
      | _ => s.usage := by
  cases e with
  | obj efs =>
      simp only [processEvent] at h
      cases hpi : pyIter (getDefault efs "choices" (.arr [])) with
      | error e0 => simp only [hpi] at h; cases h
      | ok citems =>
          simp only [hpi] at h
          cases hfe : foldE processChoiceEntry s.choices_state citems with
          | error e0 => simp only [hfe] at h; cases h
          | ok cst =>
              simp only [hfe, Except.ok.injEq] at h
              subst h
              simp [Json.get?]
  | null => cases h
  | bool b => cases h
  | num n => cases h
  | str s0 => cases h
  | arr xs => cases h

theorem foldE_usage (es : List Json) (s s' : AggState)
    (h : foldE processEvent s es = .ok s') :
    s'.usage = lastObjUsageD es s.usage := by
  induction es generalizing s with
  | nil => cases h; rfl
  | cons e rest ih =>
      rw [foldE_cons] at h
      cases hpe : processEvent s e with
      | error e0 => rw [hpe] at h; cases h
      | ok s1 =>
          rw [hpe] at h
          rw [ih s1 h, processEvent_usage s e s1 hpe]
          rfl

/-! ## Finalization and the shape of the aggregated response -/

theorem buildMessage_content (c : ChoiceState) :
    lookupVal (buildMessage c) "content" =
      some (if c.content = "" then Json.null else .str c.content) := by
  unfold buildMessage
  by_cases ht : c.tool_calls.isEmpty <;> simp [ht, lookupVal]

theorem buildMessage_role (c : ChoiceState) :
    lookupVal (buildMessage c) "role" =
      some (if truthy c.role then c.role else .str "assistant") := by
  unfold buildMessage
  by_cases ht : c.tool_calls.isEmpty <;> simp [ht, lookupVal]

theorem buildMessage_toolcalls (c : ChoiceState) :
    lookupVal (buildMessage c) "tool_calls" =
      if c.tool_calls.isEmpty then none
      else some (.arr (c.tool_calls.map Json.obj)) := by
  unfold buildMessage
  by_cases ht : c.tool_calls.isEmpty <;> simp [ht, lookupVal]

theorem finalizeChoices_mem (st : List (Int × ChoiceState)) (c : Json)
    (hc : c ∈ finalizeChoices st) :
    ∃ i, i ∈ st.map Prod.fst ∧
      c = Json.obj [("index", .num i),
        ("message", .obj (buildMessage ((assocFind st i).getD (initChoice i)))),
        ("finish_reason", ((assocFind st i).getD (initChoice i)).finish_reason)] := by
  unfold finalizeChoices at hc
  obtain ⟨i, hi, hci⟩ := List.mem_map.mp hc
  exact ⟨i, (List.mem_insertionSort (· ≤ ·)).mp hi, hci.symm⟩

theorem aggregate_fields (events : List Json) (r : Json)
    (h : aggregate_streamed_response events = .ok (some r)) :
    ∃ s, aggStateOf events = .ok s ∧
      r.get? "choices" = some (.arr (finalizeChoices s.choices_state)) ∧
      r.get? "usage" = s.usage := by
  cases events with
  | nil => simp [aggregate_streamed_response] at h
  | cons first rest =>
      simp only [aggregate_streamed_response] at h
      cases hs : aggStateOf (first :: rest) with
      | error e0 => simp only [hs] at h; cases h
      | ok s =>
          simp only [hs, Except.ok.injEq, Option.some.injEq] at h
          subst h
          refine ⟨s, rfl, ?_, ?_⟩
          · cases hu : s.usage <;>
              simp [hu, Json.get?, lookupVal_append, lookupVal]
          · cases hu : s.usage <;>
              simp [hu, Json.get?, lookupVal_append, lookupVal]

theorem finalizeChoices_indices (st : List (Int × ChoiceState)) :
    (finalizeChoices st).map (fun c => c.get? "index") =
      (List.insertionSort (· ≤ ·) (st.map Prod.fst)).map
        (fun i => some (Json.num i)) := by
  unfold finalizeChoices
  rw [List.map_map]
  simp [Function.comp_def, Json.get?, lookupVal]

theorem processChoiceEntry_keys_nodup (st : List (Int × ChoiceState)) (e : Json)
    (st' : List (Int × ChoiceState)) (hn : (st.map Prod.fst).Nodup)
    (h : processChoiceEntry st e = .ok st') : (st'.map Prod.fst).Nodup := by
  cases e with
  | obj cfs =>
      simp only [processChoiceEntry] at h
      cases hidx : (lookupVal cfs "index").bind asPyInt? with
      | none => simp only [hidx] at h; cases h; exact hn
      | some j =>
          simp only [hidx] at h
          cases happ : applyChoiceEntry ((assocFind st j).getD (initChoice j)) cfs with
          | error e0 => simp only [happ] at h; cases h
          | ok c' =>
              simp only [happ, Except.ok.injEq] at h
              subst h
              exact assocSet_keys_nodup st j c' hn
  | null => cases h
  | bool b => cases h
  | num n => cases h
  | str s0 => cases h
  | arr xs => cases h

theorem processEvent_keys_nodup (s : AggState) (e : Json) (s' : AggState)
    (hn : (s.choices_state.map Prod.fst).Nodup)
    (h : processEvent s e = .ok s') : (s'.choices_state.map Prod.fst).Nodup := by
  cases e with
  | obj efs =>
      simp only [processEvent] at h
      cases hpi : pyIter (getDefault efs "choices" (.arr [])) with
      | error e0 => simp only [hpi] at h; cases h
      | ok citems =>
          simp only [hpi] at h
          cases hfe : foldE processChoiceEntry s.choices_state citems with
          | error e0 => simp only [hfe] at h; cases h
          | ok cst =>
              simp only [hfe, Except.ok.injEq] at h
              subst h
              exact foldE_invariant
                (fun st a st' hp hstep =>
                  processChoiceEntry_keys_nodup st a st' hp hstep)
                hn hfe
  | null => cases h
  | bool b => cases h
  | num n => cases h
  | str s0 => cases h
  | arr xs => cases h

theorem aggStateOf_keys_nodup (events : List Json) (s : AggState)
    (h : aggStateOf events = .ok s) :
    (s.choices_state.map Prod.fst).Nodup := by
  exact foldE_invariant
    (fun s0 e s1 hp hstep => processEvent_keys_nodup s0 e s1 hp hstep)
    (by simp) h

/-! ## Claim C4: SSE parser behavior -/

theorem parseLines_cons (decode : String → Option Json) (raw : String)
    (rest : List String) :
    parseLines decode (raw :: rest) =
      (let line := pyStrip raw
       if ¬ strStartsWith line "data:" then parseLines decode rest
       else
         let payload_text := pyStrip (strDropChars line 5)
         if payload_text = "" then parseLines decode rest
         else if payload_text = "[DONE]" then []
         else
           match read_json decode payload_text with
           | some (.obj fs) => Json.obj fs :: parseLines decode rest
           | _ => parseLines decode rest) := rfl

theorem parseLines_skip (decode : String → Option Json) (l : String)
    (ls : List String) (h : strStartsWith (pyStrip l) "data:" = false) :
    parseLines decode (l :: ls) = parseLines decode ls := by
  rw [parseLines_cons]
  simp [h]

theorem parseLines_done (decode : String → Option Json) (l : String)
    (ls : List String) (h : isDoneLine l = true) :
    parseLines decode (l :: ls) = [] := by
  unfold isDoneLine at h
  simp only [Bool.and_eq_true, decide_eq_true_eq] at h
  rw [parseLines_cons]
  have hne : ¬ (pyStrip (strDropChars (pyStrip l) 5) = "") := by
    rw [h.2]; decide
  simp [h.1, h.2, hne]

theorem parseLines_discard (decode : String → Option Json) (l : String)
    (ls : List String) (h1 : strStartsWith (pyStrip l) "data:" = true)
    (h2 : pyStrip (strDropChars (pyStrip l) 5) ≠ "") (h3 : pyStrip (strDropChars (pyStrip l) 5) ≠ "[DONE]")
    (h4 : ∀ fs, read_json decode (pyStrip (strDropChars (pyStrip l) 5)) ≠ some (.obj fs)) :
    parseLines decode (l :: ls) = parseLines decode ls := by
  rw [parseLines_cons]
  cases hrj : read_json decode (pyStrip (strDropChars (pyStrip l) 5)) with
  | none => simp [h1, h2, h3, hrj]
  | some v =>
      cases v with
      | obj fs => exact absurd hrj (h4 fs)
      | null => simp [h1, h2, h3, hrj]
      | bool b => simp [h1, h2, h3, hrj]
      | num n => simp [h1, h2, h3, hrj]
      | str s0 => simp [h1, h2, h3, hrj]
      | arr xs => simp [h1, h2, h3, hrj]

set_option maxRecDepth 4000 in
theorem parseLines_no_done (decode : String → Option Json)
    (lines : List String) (h : ∀ l ∈ lines, isDoneLine l = false) :
    parseLines decode lines = lines.filterMap (dataObjOf decode) := by
  induction lines with
  | nil => rfl
  | cons l ls ih =>
      have hl : isDoneLine l = false := h l (List.mem_cons_self l ls)
      have hrest : ∀ x ∈ ls, isDoneLine x = false :=
        fun x hx => h x (List.mem_cons_of_mem l hx)
      rw [parseLines_cons]
      by_cases h1 : strStartsWith (pyStrip l) "data:"
      · by_cases h2 : pyStrip (strDropChars (pyStrip l) 5) = ""
        · have hobj : dataObjOf decode l = none := by
            unfold dataObjOf
            simp [h1, h2]
          simp [h1, h2, List.filterMap_cons, hobj, ih hrest]
        · have h3 : ¬ (pyStrip (strDropChars (pyStrip l) 5) = "[DONE]") := by
            intro hc
            unfold isDoneLine at hl
            rw [h1, hc] at hl
            simp at hl
          cases hrj : read_json decode (pyStrip (strDropChars (pyStrip l) 5)) with
          | none =>
              have hobj : dataObjOf decode l = none := by
                unfold dataObjOf
                simp [h1, h2, h3, hrj]
              simp [h1, h2, h3, hrj, List.filterMap_cons, hobj, ih hrest]
          | some v =>
              cases v with
              | obj fs =>
                  have hobj : dataObjOf decode l = some (.obj fs) := by
                    unfold dataObjOf
                    simp [h1, h2, h3, hrj]
                  simp [h1, h2, h3, hrj, List.filterMap_cons, hobj, ih hrest]
              | null =>
                  have hobj : dataObjOf decode l = none := by
                    unfold dataObjOf
                    simp [h1, h2, h3, hrj]
                  simp [h1, h2, h3, hrj, List.filterMap_cons, hobj, ih hrest]
              | bool b =>
                  have hobj : dataObjOf decode l = none := by
                    unfold dataObjOf
                    simp [h1, h2, h3, hrj]
                  simp [h1, h2, h3, hrj, List.filterMap_cons, hobj, ih hrest]
              | num n =>
                  have hobj : dataObjOf decode l = none := by
                    unfold dataObjOf
                    simp [h1, h2, h3, hrj]
                  simp [h1, h2, h3, hrj, List.filterMap_cons, hobj, ih hrest]
              | str s0 =>
                  have hobj : dataObjOf decode l = none := by
                    unfold dataObjOf
                    simp [h1, h2, h3, hrj]
                  simp [h1, h2, h3, hrj, List.filterMap_cons, hobj, ih hrest]
              | arr xs =>
                  have hobj : dataObjOf decode l = none := by
                    unfold dataObjOf
                    simp [h1, h2, h3, hrj]
                  simp [h1, h2, h3, hrj, List.filterMap_cons, hobj, ih hrest]
      · have hobj : dataObjOf decode l = none := by
          unfold dataObjOf
          simp [h1]
        simp [h1, List.filterMap_cons, hobj, ih hrest]

/-- C4: `parse_sse_events` splits the body into lines and considers only
trimmed lines beginning with `data:`; a `data: [DONE]` line stops
processing so every subsequent line is ignored; a payload that fails to
parse as JSON or parses to a non-object is silently discarded; an empty
body yields an empty sequence; and a body with no terminator is scanned
to the end, yielding exactly its object-valued data payloads. -/
theorem C4_sse_parser_behavior :
    (∀ decode body, parse_sse_events decode body =
        parseLines decode (splitOnNl body)) ∧
    (∀ decode (l : String) (ls : List String),
        strStartsWith (pyStrip l) "data:" = false →
        parseLines decode (l :: ls) = parseLines decode ls) ∧
    (∀ decode (l : String) (ls : List String), isDoneLine l = true →
        parseLines decode (l :: ls) = []) ∧
    (∀ decode (l : String) (ls : List String),
        strStartsWith (pyStrip l) "data:" = true →
        pyStrip (strDropChars (pyStrip l) 5) ≠ "" →
        pyStrip (strDropChars (pyStrip l) 5) ≠ "[DONE]" →
        (∀ fs, read_json decode (pyStrip (strDropChars (pyStrip l) 5)) ≠ some (.obj fs)) →
        parseLines decode (l :: ls) = parseLines decode ls) ∧
    (∀ decode, parse_sse_events decode "" = []) ∧
    (∀ decode (lines : List String), (∀ l ∈ lines, isDoneLine l = false) →
        parseLines decode lines = lines.filterMap (dataObjOf decode)) :=
  ⟨fun _ _ => rfl, parseLines_skip, parseLines_done, parseLines_discard,
   fun _ => rfl, parseLines_no_done⟩

/-- Witness for C4 at concrete inputs: a terminator line hides the
following data line, and a malformed line is discarded. -/
theorem C4_sse_parser_behavior_witness :
    parseLines (fun _ => none) ["data: [DONE]", "data: zzz"] = [] ∧
    parseLines (fun _ => none) ["data: zzz"] = parseLines (fun _ => none) [] ∧
    parse_sse_events (fun _ => none) "" = [] :=
  ⟨C4_sse_parser_behavior.2.2.1 (fun _ => none) "data: [DONE]" ["data: zzz"]
      (by decide),
   C4_sse_parser_behavior.2.2.2.1 (fun _ => none) "data: zzz" []
      (by decide) (by decide) (by decide) (fun fs h => by cases h),
   C4_sse_parser_behavior.2.2.2.2.1 (fun _ => none)⟩

/-! ## Claim C9: request-side silent skips -/

/-- C9: for every request whose method is not POST (case-insensitively),
or whose path does not match a supported endpoint, or whose body is
empty, unparsable or not a JSON object, or that a preprocessor vetoes,
the request handler produces no input record and stores no correlation
state (the model's `none` outcome), and raises no error (the handler is
a total function into `Option`). -/
theorem C9_request_skip_conditions (decode : String → Option Json)
    (registry : EndpointRegistry) (router : StorageRouter)
    (preprocessors : List (Json → RequestData → Option Json))
    (req : RequestData)
    (h : pyUpper req.method ≠ "POST" ∨
         registry.supports req.path = false ∨
         req.body = "" ∨
         (∀ pfs, read_json decode req.body ≠ some (.obj pfs)) ∨
         (∀ pfs, read_json decode req.body = some (.obj pfs) →
            _apply_preprocessors (.obj pfs) req preprocessors = none)) :
    OpenAILogger.request decode registry router preprocessors req = none := by
  unfold OpenAILogger.request
  rcases h with hm | hs | hb | hj | hv
  · simp [hm]
  · simp [hs]
  · simp [hb]
  · cases hrj : read_json decode req.body with
    | none => simp [hrj]
    | some v =>
        cases v with
        | obj pfs => exact absurd hrj (hj pfs)
        | null => simp [hrj]
        | bool b => simp [hrj]
        | num n => simp [hrj]
        | str s => simp [hrj]
        | arr xs => simp [hrj]
  · cases hrj : read_json decode req.body with
    | none => simp [hrj]
    | some v =>
        cases v with
        | obj pfs => simp [hrj, hv pfs hrj]
        | null => simp [hrj]
        | bool b => simp [hrj]
        | num n => simp [hrj]
        | str s => simp [hrj]
        | arr xs => simp [hrj]

/-- Witness for C9: a GET request to a supported path is skipped. -/
theorem C9_request_skip_conditions_witness :
    OpenAILogger.request (fun _ => none) default_endpoint_registry
      (StorageRouter.make ["data"]) []
      ⟨"GET", "/v1/chat/completions", "x", []⟩ = none :=
  C9_request_skip_conditions (fun _ => none) default_endpoint_registry
    (StorageRouter.make ["data"]) [] ⟨"GET", "/v1/chat/completions", "x", []⟩
    (Or.inl (by decide))

/-! ## Claim C8: non-stream response handling (corrected) -/

theorem read_json_some_iff (decode : String → Option Json) (t : String)
    (v : Json) :
    read_json decode t = some v ↔ (decode t = some v ∧ v ≠ .null) := by
  unfold read_json
  cases hd : decode t with
  | none => simp
  | some w =>
      cases w with
      | null =>
          simp only [hd, Option.some.injEq]
          constructor
          · intro hc; cases hc
          · rintro ⟨hv, hne⟩
            exact absurd hv.symm hne
      | bool b =>
          simp only [hd, Option.some.injEq]
          exact ⟨fun he => ⟨he, fun hc => Json.noConfusion (hc ▸ he)⟩,
                 fun hp => hp.1⟩
      | num n =>
          simp only [hd, Option.some.injEq]
          exact ⟨fun he => ⟨he, fun hc => Json.noConfusion (hc ▸ he)⟩,
                 fun hp => hp.1⟩
      | str s =>
          simp only [hd, Option.some.injEq]
          exact ⟨fun he => ⟨he, fun hc => Json.noConfusion (hc ▸ he)⟩,
                 fun hp => hp.1⟩
      | arr xs =>
          simp only [hd, Option.some.injEq]
          exact ⟨fun he => ⟨he, fun hc => Json.noConfusion (hc ▸ he)⟩,
                 fun hp => hp.1⟩
      | obj fs =>
          simp only [hd, Option.some.injEq]
          exact ⟨fun he => ⟨he, fun hc => Json.noConfusion (hc ▸ he)⟩,
                 fun hp => hp.1⟩

/-- C8 counterexample: the body text "null" parses successfully as JSON
(the decoder returns JSON null), yet the handler takes no action, because
`orjson` maps a JSON null payload to Python `None`, which `read_json`
cannot distinguish from a parse failure. -/
theorem C8_response_counterexample :
    decodeNullOnly rdNullBody.body = some Json.null ∧
    rdNullBody.body ≠ "" ∧
    is_event_stream rdNullBody.contentType = false ∧
    OpenAILogger.response decodeNullOnly rdNullBody = .ok none := by
  refine ⟨rfl, by decide, by decide, rfl⟩

/-- C8 (amended): when a correlated response's content type is not an
event stream and its body is non-empty, the handler writes the parsed
body verbatim to the output destination if and only if the body parses
successfully as JSON *to a value other than null*; on parse failure or a
null parse it takes no action and raises no error. -/
theorem C8_response_nonstream (decode : String → Option Json)
    (rd : ResponseData) (sp : StoragePaths) (v : Json)
    (h1 : rd.hasRequestMeta = true) (h2 : rd.hasResponse = true)
    (h3 : rd.storageMeta = some sp) (h4 : rd.body ≠ "")
    (h5 : is_event_stream rd.contentType = false) :
    (OpenAILogger.response decode rd = .ok (some (sp.output_path, v)) ↔
      (decode rd.body = some v ∧ v ≠ .null)) ∧
    (read_json decode rd.body = none →
      OpenAILogger.response decode rd = .ok none) := by
  unfold OpenAILogger.response
  rw [h3]
  simp only [h1, h2, h4, h5, Bool.true_eq_false, not_true_eq_false, if_false,
    Bool.false_eq_true, ite_false, ite_true, if_neg, not_false_eq_true]
  rw [← read_json_some_iff decode rd.body v]
  cases hrj : read_json decode rd.body with
  | none =>
      constructor
      · constructor
        · intro hc
          simp at hc
        · intro hc
          cases hc
      · intro _; rfl
  | some payload =>
      constructor
      · constructor
        · intro hc
          simp only [Except.ok.injEq, Option.some.injEq, Prod.mk.injEq] at hc
          rw [hc.2]
        · intro hc
          rw [Option.some.inj hc]
      · intro hc
        cases hc

/-- Witness for C8 at a concrete non-stream exchange: a JSON-object body
is written verbatim to the resolved output destination. -/
theorem C8_response_nonstream_witness :
    OpenAILogger.response
      (fun s => if s = "ok" then some (.str "ok") else none)
      ⟨true, some ⟨["data", "input.jsonl"], ["data", "output.jsonl"]⟩,
       true, "ok", "application/json"⟩ =
      .ok (some (["data", "output.jsonl"], .str "ok")) :=
  ((C8_response_nonstream
      (fun s => if s = "ok" then some (.str "ok") else none)
      ⟨true, some ⟨["data", "input.jsonl"], ["data", "output.jsonl"]⟩,
       true, "ok", "application/json"⟩
      ⟨["data", "input.jsonl"], ["data", "output.jsonl"]⟩ (.str "ok")
      rfl rfl rfl (by decide) (by decide)).1).mpr
    ⟨rfl, fun hc => Json.noConfusion hc⟩

/-! ## Claim C10: storage path resolution (corrected) -/

theorem head_dropWhile_not (p : Char → Bool) (l : List Char) (c : Char)
    (h : (l.dropWhile p).head? = some c) : p c = false := by
  induction l with
  | nil => cases h
  | cons a rest ih =>
      rw [List.dropWhile_cons] at h
      by_cases hp : p a = true
      · rw [if_pos hp] at h
        exact ih h
      · rw [if_neg hp] at h
        simp only [List.head?_cons, Option.some.injEq] at h
        subst h
        simpa using hp

theorem headOfPrefix {l₁ l₂ : List Char} (h : l₁ <+: l₂) (c : Char)
    (hc : l₁.head? = some c) : l₂.head? = some c := by
  obtain ⟨t, rfl⟩ := h
  cases l₁ with
  | nil => cases hc
  | cons a r => simpa using hc

theorem cleanedSegment_takes_front (value : String) :
    cleanedSegment value <+:
      (((pyStrip value).data.map fun c =>
        if allowedSegmentChar c then c else '_').dropWhile edgeStripChar) := by
  unfold cleanedSegment
  exact List.reverse_suffix.mp
    (by rw [List.reverse_reverse]; exact List.dropWhile_suffix _)

theorem cleanedSegment_allowed (value : String) (c : Char)
    (hc : c ∈ cleanedSegment value) : allowedSegmentChar c = true := by
  have h1 : c ∈ ((pyStrip value).data.map fun x =>
      if allowedSegmentChar x then x else '_') :=
    (List.dropWhile_suffix _).subset ((cleanedSegment_takes_front value).subset hc)
  obtain ⟨x, _, hfx⟩ := List.mem_map.mp h1
  by_cases ha : allowedSegmentChar x = true
  · rw [← hfx, if_pos ha]
    exact ha
  · rw [← hfx, if_neg ha]
    decide

/-- C10 counterexample: a 121-character header (119 letters, a dash, a
letter) resolves to a batch segment that is truncated to 120 characters
and *ends with a dash*, because truncation happens after the edge strip. -/
theorem C10_storage_counterexample :
    ((StorageRouter.make ["data"]).resolve [("x-batch-id", longHeader)]).input_path =
      ["data", "requests", _safe_path_segment longHeader, "input.jsonl"] ∧
    (_safe_path_segment longHeader).data.getLast? = some '-' ∧
    (_safe_path_segment longHeader).length = 120 := by
  refine ⟨by decide, by decide, by decide⟩

/-- C10 (amended): the resolved batch segment contains only ASCII
letters, digits, dash, underscore and dot, is at most 120 characters,
never empty (falling back to "unknown"), and never *begins* with a dot,
underscore or dash; it also never *ends* with one provided the cleaned
header fits within the 120-character truncation limit (a longer header
can be cut right after such a character).  A non-empty `x-batch-id`
header yields both paths under the common `requests/<segment>` directory;
an absent or empty header yields the fixed defaults in the data
directory. -/
theorem C10_storage_resolution :
    (∀ value : String, (_safe_path_segment value).length ≤ 120) ∧
    (∀ value : String, ∀ c ∈ (_safe_path_segment value).data,
        allowedSegmentChar c = true) ∧
    (∀ value : String, _safe_path_segment value ≠ "") ∧
    (∀ (value : String) (c : Char),
        (_safe_path_segment value).data.head? = some c →
        edgeStripChar c = false) ∧
    (∀ (value : String) (c : Char), (cleanedSegment value).length ≤ 120 →
        (_safe_path_segment value).data.getLast? = some c →
        edgeStripChar c = false) ∧
    (∀ value : String, cleanedSegment value = [] →
        _safe_path_segment value = "unknown") ∧
    (∀ (dataDir : FSPath) (headers : List (String × String)),
        headerGet headers "x-batch-id" ≠ "" →
        (StorageRouter.make dataDir).resolve headers =
          ⟨dataDir ++ ["requests",
              _safe_path_segment (headerGet headers "x-batch-id"),
              "input.jsonl"],
           dataDir ++ ["requests",
              _safe_path_segment (headerGet headers "x-batch-id"),
              "output.jsonl"]⟩) ∧
    (∀ (dataDir : FSPath) (headers : List (String × String)),
        headerGet headers "x-batch-id" = "" →
        (StorageRouter.make dataDir).resolve headers =
          ⟨dataDir ++ ["input.jsonl"], dataDir ++ ["output.jsonl"]⟩) := by
  refine ⟨?_, ?_, ?_, ?_, ?_, ?_, ?_, ?_⟩
  · intro value
    unfold _safe_path_segment
    by_cases he : ((cleanedSegment value).take 120).isEmpty
    · rw [if_pos he]
      decide
    · rw [if_neg he]
      show ((cleanedSegment value).take 120).length ≤ 120
      rw [List.length_take]
      exact min_le_left _ _
  · intro value c hc
    unfold _safe_path_segment at hc
    by_cases he : ((cleanedSegment value).take 120).isEmpty
    · rw [if_pos he] at hc
      exact (by decide : ∀ x ∈ "unknown".data, allowedSegmentChar x = true) c hc
    · rw [if_neg he] at hc
      exact cleanedSegment_allowed value c (List.take_subset 120 _ hc)
  · intro value
    unfold _safe_path_segment
    by_cases he : ((cleanedSegment value).take 120).isEmpty
    · simp [he]
    · simp only [he, Bool.false_eq_true, if_false]
      intro h
      have hd : ((cleanedSegment value).take 120) = [] := congrArg String.data h
      rw [hd] at he
      simp at he
  · intro value c hc
    unfold _safe_path_segment at hc
    by_cases he : ((cleanedSegment value).take 120).isEmpty
    · rw [if_pos he] at hc
      cases hc
      decide
    · rw [if_neg he] at hc
      have h1 : (cleanedSegment value).head? = some c :=
        headOfPrefix (List.take_prefix 120 _) c hc
      have h2 := headOfPrefix (cleanedSegment_takes_front value) c h1
      exact head_dropWhile_not edgeStripChar _ c h2
  · intro value c hlen hc
    unfold _safe_path_segment at hc
    by_cases he : ((cleanedSegment value).take 120).isEmpty
    · rw [if_pos he] at hc
      cases hc
      decide
    · rw [if_neg he] at hc
      rw [List.take_of_length_le hlen] at hc
      unfold cleanedSegment at hc
      rw [List.getLast?_reverse] at hc
      exact head_dropWhile_not edgeStripChar _ c hc
  · intro value h
    unfold _safe_path_segment
    rw [h]
    rfl
  · intro dataDir headers hne
    have hmk : StorageRouter.make dataDir = ⟨dataDir, some "x-batch-id"⟩ := rfl
    rw [hmk]
    simp only [StorageRouter.resolve]
    rw [if_pos hne]
    simp [List.append_assoc]
  · intro dataDir headers hempty
    have hmk : StorageRouter.make dataDir = ⟨dataDir, some "x-batch-id"⟩ := rfl
    rw [hmk]
    simp only [StorageRouter.resolve]
    rw [if_neg (by simp [hempty])]

/-- Witness for C10 at a concrete flow: header value "b1" (matched
case-insensitively) routes both files under `requests/b1`. -/
theorem C10_storage_resolution_witness :
    (StorageRouter.make ["data"]).resolve [("X-Batch-ID", "b1")] =
      ⟨["data", "requests", "b1", "input.jsonl"],
       ["data", "requests", "b1", "output.jsonl"]⟩ := by
  have h := C10_storage_resolution.2.2.2.2.2.2.1
    ["data"] [("X-Batch-ID", "b1")] (by decide)
  rw [h]
  decide

/-! ## Claim C5: usage selection -/

/-- C5: the aggregated response has a `usage` field if and only if some
event supplied a JSON-object `usage`, in which case it equals the last
such occurrence across the whole event sequence. -/
theorem C5_usage_last (events : List Json) (r : Json)
    (h : aggregate_streamed_response events = .ok (some r)) :
    r.get? "usage" = lastObjUsage events := by
  obtain ⟨s, hs, _, hu⟩ := aggregate_fields events r h
  rw [hu]
  exact foldE_usage events ⟨[], none⟩ s hs

/-- Witness for C5: of two events, only the second supplies `usage`, and
the aggregated result's `usage` is the second event's value. -/
theorem C5_usage_last_witness :
    Json.get? (.obj [("id", .null), ("object", .str "chat.completion"),
      ("created", .null), ("model", .null), ("choices", .arr []),
      ("usage", .obj [("total_tokens", .num 7)])]) "usage" =
      lastObjUsage [evUsageA, evUsageB] :=
  C5_usage_last [evUsageA, evUsageB] _ rfl

/-! ## Claim C3: output choice ordering -/

/-- C3: for every stream the aggregation completes on, the `choices`
list of the aggregated response carries strictly increasing integer
indices, regardless of how fragments for different indices were
interleaved across the input events. -/
theorem C3_choices_sorted (events : List Json) (r : Json)
    (h : aggregate_streamed_response events = .ok (some r)) :
    ∃ ks : List Int,
      (choicesOfResponse r).map (fun c => c.get? "index") =
        ks.map (fun n => some (Json.num n)) ∧
      ks.Sorted (· < ·) := by
  obtain ⟨s, hs, hch, _⟩ := aggregate_fields events r h
  refine ⟨List.insertionSort (· ≤ ·) (s.choices_state.map Prod.fst), ?_, ?_⟩
  · unfold choicesOfResponse
    rw [hch]
    exact finalizeChoices_indices s.choices_state
  · have hsorted := List.sorted_insertionSort (· ≤ ·)
      (s.choices_state.map Prod.fst)
    have hnodup : (List.insertionSort (· ≤ ·)
        (s.choices_state.map Prod.fst)).Nodup :=
      ((List.perm_insertionSort _ _).nodup_iff).mpr
        (aggStateOf_keys_nodup events s hs)
    exact List.Sorted.lt_of_le hsorted hnodup

/-- Witness for C3: fragments arriving for index 1 before index 0 still
finalize in ascending index order. -/
theorem C3_choices_sorted_witness :
    ∃ ks : List Int,
      (choicesOfResponse (.obj [("id", .null),
        ("object", .str "chat.completion"), ("created", .null),
        ("model", .null),
        ("choices", .arr [
          .obj [("index", .num 0),
            ("message", .obj [("role", .str "assistant"),
              ("content", .str "a")]),
            ("finish_reason", .null)],
          .obj [("index", .num 1),
            ("message", .obj [("role", .str "assistant"),
              ("content", .str "b")]),
            ("finish_reason", .null)]])])).map (fun c => c.get? "index") =
        ks.map (fun n => some (Json.num n)) ∧
      ks.Sorted (· < ·) :=
  C3_choices_sorted [evIdxOne, evIdxZero] _ rfl

/-! ## The per-choice representation shared by claims C2 and C7 -/

theorem aggregate_choice_repr (events : List Json) (r : Json) (i : Int)
    (c : Json) (h : aggregate_streamed_response events = .ok (some r))
    (hc : c ∈ choicesOfResponse r)
    (hidx : c.get? "index" = some (.num i)) :
    c = Json.obj [("index", .num i),
      ("message", .obj (buildMessage
        ((entriesAt events i).foldl entryApplyP (initChoice i)))),
      ("finish_reason",
        ((entriesAt events i).foldl entryApplyP (initChoice i)).finish_reason)]
      ∧ entriesAt events i ≠ [] := by
  obtain ⟨s, hs, hch, _⟩ := aggregate_fields events r h
  have hcs : choicesOfResponse r = finalizeChoices s.choices_state := by
    unfold choicesOfResponse
    rw [hch]
  rw [hcs] at hc
  obtain ⟨j, hjmem, hcrep⟩ := finalizeChoices_mem _ _ hc
  have hj : j = i := by
    rw [hcrep] at hidx
    simp [Json.get?, lookupVal] at hidx
    exact hidx
  subst hj
  obtain ⟨cst, hcst⟩ := assocFind_of_mem_keys _ _ hjmem
  have hfind := aggStateOf_find events s hs j
  rw [hcst] at hfind
  cases hsel : entriesAt events j with
  | nil =>
      rw [hsel, replayFind_nil] at hfind
      cases hfind
  | cons a rest =>
      rw [hsel, replayFind_cons] at hfind
      have hcsteq : cst = (a :: rest).foldl entryApplyP (initChoice j) := by
        simpa using hfind
      constructor
      · rw [hcrep, hcst]
        simp only [Option.getD_some]
        rw [hcsteq]
      · simp

/-! ## Claim C2: content concatenation (corrected) -/

/-- C2 counterexample: a choice that accumulated no content fragments is
finalized with an explicit null content, not the (empty) concatenation
of its fragments. -/
theorem C2_content_counterexample :
    contentFrags [evIndexOnly] 0 = [] ∧
    aggregate_streamed_response [evIndexOnly] =
      .ok (some (.obj [("id", .null), ("object", .str "chat.completion"),
        ("created", .null), ("model", .null),
        ("choices", .arr [.obj [("index", .num 0),
          ("message", .obj [("role", .str "assistant"), ("content", .null)]),
          ("finish_reason", .null)]])])) :=
  ⟨rfl, rfl⟩

/-- C2 (amended): for every choice index, the final message content is
the concatenation, in event arrival order, of exactly the non-null
`delta.content` fragments addressed to that index, whenever that
concatenation is non-empty; when it is empty the content is an explicit
null. -/
theorem C2_content_concatenation (events : List Json) (r : Json) (i : Int)
    (c : Json) (h : aggregate_streamed_response events = .ok (some r))
    (hc : c ∈ choicesOfResponse r)
    (hidx : c.get? "index" = some (.num i)) :
    messageContentOf c =
      some (if concatAll (contentFrags events i) = "" then Json.null
            else .str (concatAll (contentFrags events i))) := by
  obtain ⟨hrep, _⟩ := aggregate_choice_repr events r i c h hc hidx
  rw [hrep]
  unfold messageContentOf
  simp only [Json.get?, lookupVal, if_false, if_pos, Option.bind_some,
    String.reduceEq, reduceIte, Option.some_bind]
  rw [buildMessage_content, foldl_entryApplyP_content]
  unfold contentFrags
  rfl

/-- Witness for C2: the "Hel" / "lo" stream yields message content
"Hello" for choice 0. -/
theorem C2_content_concatenation_witness :
    messageContentOf (.obj [("index", .num 0),
      ("message", .obj [("role", .str "assistant"),
        ("content", .str "Hello")]),
      ("finish_reason", .str "stop")]) =
      some (if concatAll (contentFrags [evHelloA, evHelloB] 0) = ""
            then Json.null
            else .str (concatAll (contentFrags [evHelloA, evHelloB] 0))) :=
  C2_content_concatenation [evHelloA, evHelloB]
    (.obj [("id", .str "c1"), ("object", .str "chat.completion"),
      ("created", .num 1), ("model", .str "m"),
      ("choices", .arr [.obj [("index", .num 0),
        ("message", .obj [("role", .str "assistant"),
          ("content", .str "Hello")]),
        ("finish_reason", .str "stop")]])])
    0 _ rfl (List.mem_singleton_self _) rfl

/-! ## Claim C7: finalized role / content / finish_reason (corrected) -/

/-- C7 counterexample: the deltas for choice 0 supply role "user" and
then role null; the last non-null role is "user", yet the finalized
message role is "assistant", because the null overwrite clears the
stored role and the default kicks in. -/
theorem C7_role_counterexample :
    (entriesAt [evRoleUser, evRoleNull] 0).filterMap roleOfEntry =
      [.str "user", .null] ∧
    aggregate_streamed_response [evRoleUser, evRoleNull] =
      .ok (some (.obj [("id", .null), ("object", .str "chat.completion"),
        ("created", .null), ("model", .null),
        ("choices", .arr [.obj [("index", .num 0),
          ("message", .obj [("role", .str "assistant"), ("content", .null)]),
          ("finish_reason", .null)]])])) :=
  ⟨rfl, rfl⟩

/-- C7 (amended): in every finalized choice, `message.role` equals the
*last* role value supplied by any delta for that index — null and other
falsy overwrites included — with "assistant" substituted when that final
stored value is null or otherwise falsy; `message.content` is the
accumulated string when non-empty and an explicit null otherwise; and
`finish_reason` equals the last non-null value seen for that index
(null if never set). -/
theorem C7_finalized_choice_fields (events : List Json) (r : Json) (i : Int)
    (c : Json) (h : aggregate_streamed_response events = .ok (some r))
    (hc : c ∈ choicesOfResponse r)
    (hidx : c.get? "index" = some (.num i)) :
    (messageRoleOf c =
      some (if truthy (lastD ((entriesAt events i).filterMap roleOfEntry)
                  Json.null) then
              lastD ((entriesAt events i).filterMap roleOfEntry) Json.null
            else .str "assistant")) ∧
    (messageContentOf c =
      some (if concatAll (contentFrags events i) = "" then Json.null
            else .str (concatAll (contentFrags events i)))) ∧
    (c.get? "finish_reason" =
      some (lastD ((entriesAt events i).filterMap finishOfEntry)
        Json.null)) := by
  obtain ⟨hrep, _⟩ := aggregate_choice_repr events r i c h hc hidx
  refine ⟨?_, ?_, ?_⟩
  · rw [hrep]
    unfold messageRoleOf
    simp only [Json.get?, lookupVal, if_false, if_pos, Option.bind_some,
      String.reduceEq, reduceIte, Option.some_bind]
    rw [buildMessage_role, foldl_entryApplyP_role]
    rfl
  · rw [hrep]
    unfold messageContentOf
    simp only [Json.get?, lookupVal, if_false, if_pos, Option.bind_some,
      String.reduceEq, reduceIte, Option.some_bind]
    rw [buildMessage_content, foldl_entryApplyP_content]
    unfold contentFrags
    rfl
  · rw [hrep]
    simp only [Json.get?, lookupVal, String.reduceEq, reduceIte]
    rw [foldl_entryApplyP_finish]
    rfl

/-- Witness for C7: role set once to "assistant", content "Hello",
finish reason "stop". -/
theorem C7_finalized_choice_fields_witness :
    (messageRoleOf (.obj [("index", .num 0),
      ("message", .obj [("role", .str "assistant"),
        ("content", .str "Hello")]),
      ("finish_reason", .str "stop")]) =
      some (if truthy (lastD ((entriesAt [evHelloA, evHelloB] 0).filterMap
                  roleOfEntry) Json.null) then
              lastD ((entriesAt [evHelloA, evHelloB] 0).filterMap roleOfEntry)
                Json.null
            else .str "assistant")) ∧
    (messageContentOf (.obj [("index", .num 0),
      ("message", .obj [("role", .str "assistant"),
        ("content", .str "Hello")]),
      ("finish_reason", .str "stop")]) =
      some (if concatAll (contentFrags [evHelloA, evHelloB] 0) = ""
            then Json.null
            else .str (concatAll (contentFrags [evHelloA, evHelloB] 0)))) ∧
    (Json.get? (.obj [("index", .num 0),
      ("message", .obj [("role", .str "assistant"),
        ("content", .str "Hello")]),
      ("finish_reason", .str "stop")]) "finish_reason" =
      some (lastD ((entriesAt [evHelloA, evHelloB] 0).filterMap finishOfEntry)
        Json.null)) :=
  C7_finalized_choice_fields [evHelloA, evHelloB]
    (.obj [("id", .str "c1"), ("object", .str "chat.completion"),
      ("created", .num 1), ("model", .str "m"),
      ("choices", .arr [.obj [("index", .num 0),
        ("message", .obj [("role", .str "assistant"),
          ("content", .str "Hello")]),
        ("finish_reason", .str "stop")]])])
    0 _ rfl (List.mem_singleton_self _) rfl

/-! ## Claim C6: tool-call fragment merging -/

theorem mergeIdType_id (target delta : Obj) :
    lookupVal (mergeIdType target delta) "id" =
      match lookupVal delta "id" with
      | some v => some v
      | none => lookupVal target "id" := by
  unfold mergeIdType
  cases hid : lookupVal delta "id" with
  | none =>
      cases hty : lookupVal delta "type" with
      | none => rfl
      | some w => exact lookupVal_setKey_ne target "type" "id" w (by decide)
  | some v =>
      cases hty : lookupVal delta "type" with
      | none => exact lookupVal_setKey_self target "id" v
      | some w =>
          rw [lookupVal_setKey_ne _ "type" "id" w (by decide)]
          exact lookupVal_setKey_self target "id" v

theorem mergeIdType_type (target delta : Obj) :
    lookupVal (mergeIdType target delta) "type" =
      match lookupVal delta "type" with
      | some v => some v
      | none => lookupVal target "type" := by
  unfold mergeIdType
  cases hid : lookupVal delta "id" with
  | none =>
      cases hty : lookupVal delta "type" with
      | none => rfl
      | some w => exact lookupVal_setKey_self target "type" w
  | some v =>
      cases hty : lookupVal delta "type" with
      | none => exact lookupVal_setKey_ne target "id" "type" v (by decide)
      | some w => exact lookupVal_setKey_self _ "type" w

theorem mergeIdType_other (target delta : Obj) (k : String)
    (h1 : k ≠ "id") (h2 : k ≠ "type") :
    lookupVal (mergeIdType target delta) k = lookupVal target k := by
  unfold mergeIdType
  cases hid : lookupVal delta "id" with
  | none =>
      cases hty : lookupVal delta "type" with
      | none => rfl
      | some w => exact lookupVal_setKey_ne target "type" k w h2
  | some v =>
      cases hty : lookupVal delta "type" with
      | none => exact lookupVal_setKey_ne target "id" k v h1
      | some w =>
          rw [lookupVal_setKey_ne _ "type" k w h2]
          exact lookupVal_setKey_ne target "id" k v h1

theorem lookup_ensureFn_ne (t2 : Obj) (k : String) (hk : k ≠ "function") :
    lookupVal (ensureFn t2) k = lookupVal t2 k := by
  unfold ensureFn
  by_cases hsd : (lookupVal t2 "function").isSome
  · rw [if_pos hsd]
  · rw [if_neg hsd]
    exact lookupVal_setKey_ne t2 "function" k _ hk

theorem merge_tool_call_ne_function (target delta res : Obj)
    (h : _merge_tool_call target delta = .ok res) (k : String)
    (hk : k ≠ "function") :
    lookupVal res k = lookupVal (mergeIdType target delta) k := by
  unfold _merge_tool_call at h
  repeat' split at h
  all_goals dsimp only at h
  all_goals repeat' split at h
  all_goals cases h
  all_goals
    first
      | rfl
      | (rw [lookupVal_setKey_ne _ "function" k _ hk]
         exact lookup_ensureFn_ne _ k hk)
      | exact lookup_ensureFn_ne _ k hk

theorem ensureFn_fn_lookup (t2 : Obj) :
    lookupVal (ensureFn t2) "function" =
      match lookupVal t2 "function" with
      | none => some (.obj [])
      | some v => some v := by
  unfold ensureFn
  cases hf : lookupVal t2 "function" with
  | none => simp [hf, lookupVal_setKey_self]
  | some v => simp [hf]

theorem concatArgs_ok (fn : Obj) (av : Json) (fn2 : Obj)
    (h : concatArgs fn av = .ok fn2) :
    ∃ o a, getDefault fn "arguments" (.str "") = .str o ∧ av = .str a ∧
      fn2 = setKey fn "arguments" (.str (o ++ a)) := by
  unfold concatArgs at h
  split at h
  next x y o a heq =>
    cases h
    exact ⟨o, a, heq, rfl, rfl⟩
  next => cases h

theorem merge_tool_call_fn (target delta res dfs : Obj)
    (h : _merge_tool_call target delta = .ok res)
    (hfv : lookupVal delta "function" = some (.obj dfs)) :
    ∃ fn', lookupVal res "function" = some (.obj fn') ∧
      (∀ v, lookupVal dfs "name" = some v → lookupVal fn' "name" = some v) ∧
      (∀ a : String, fnObjOrAbsent target = true →
        lookupVal dfs "arguments" = some (.str a) →
        lookupVal fn' "arguments" = some (.str (toolArgsStr target ++ a))) := by
  unfold _merge_tool_call at h
  simp only [hfv] at h
  try dsimp only at h
  have hfnbase : lookupVal (ensureFn (mergeIdType target delta)) "function" =
      match lookupVal target "function" with
      | none => some (.obj [])
      | some v => some v := by
    rw [ensureFn_fn_lookup, mergeIdType_other target delta "function"
      (by decide) (by decide)]
  have hargsbase : fnObjOrAbsent target = true →
      getDefault (fnObjOf (ensureFn (mergeIdType target delta)))
          "arguments" (.str "") = .str (toolArgsStr target) ∨
      (∃ w, getDefault (fnObjOf (ensureFn (mergeIdType target delta)))
          "arguments" (.str "") = w ∧ ∀ o : String, w ≠ .str o) := by
    intro hOA
    unfold fnObjOf
    rw [hfnbase]
    unfold fnObjOrAbsent at hOA
    cases hf : lookupVal target "function" with
    | none =>
        left
        unfold toolArgsStr toolFnField
        rw [hf]
        rfl
    | some v =>
        rw [hf] at hOA
        cases v with
        | obj fs =>
            unfold toolArgsStr toolFnField
            rw [hf]
            cases ha : lookupVal fs "arguments" with
            | none =>
                left
                simp [getDefault, ha]
            | some w =>
                cases w with
                | str s => left; simp [getDefault, ha]
                | null =>
                    right
                    exact ⟨.null, by simp [getDefault, ha],
                      fun o hc => Json.noConfusion hc⟩
                | bool b =>
                    right
                    exact ⟨.bool b, by simp [getDefault, ha],
                      fun o hc => Json.noConfusion hc⟩
                | num n =>
                    right
                    exact ⟨.num n, by simp [getDefault, ha],
                      fun o hc => Json.noConfusion hc⟩
                | arr xs =>
                    right
                    exact ⟨.arr xs, by simp [getDefault, ha],
                      fun o hc => Json.noConfusion hc⟩
                | obj ofs =>
                    right
                    exact ⟨.obj ofs, by simp [getDefault, ha],
                      fun o hc => Json.noConfusion hc⟩
        | null => cases hOA
        | bool b => cases hOA
        | num n => cases hOA
        | str s => cases hOA
        | arr xs => cases hOA
  cases hda : lookupVal dfs "arguments" with
  | none =>
      simp only [hda] at h
      cases h
      refine ⟨_, lookupVal_setKey_self _ "function" _, ?_, ?_⟩
      · intro v hv
        rw [hv]
        exact lookupVal_setKey_self _ "name" v
      · intro a _ hc
        cases hc
  | some av =>
      simp only [hda] at h
      split at h
      next e0 heq => cases h
      next fn2 hca =>
          cases h
          obtain ⟨o, a0, hgd, hav, hfn2⟩ := concatArgs_ok _ _ _ hca
          refine ⟨fn2, lookupVal_setKey_self _ "function" _, ?_, ?_⟩
          · intro v hv
            rw [hfn2]
            rw [lookupVal_setKey_ne _ "arguments" "name" _ (by decide)]
            rw [hv]
            exact lookupVal_setKey_self _ "name" v
          · intro a hOA hc
            have hava : av = .str a := Option.some.inj hc
            have ho : o = toolArgsStr target := by
              have hgd2 : getDefault (fnObjOf (ensureFn (mergeIdType target
                  delta))) "arguments" (.str "") = .str o := by
                cases hname : lookupVal dfs "name" with
                | none => rw [hname] at hgd; exact hgd
                | some nv =>
                    rw [hname] at hgd
                    rw [getDefault, lookupVal_setKey_ne _ "name" "arguments" _
                      (by decide)] at hgd
                    exact hgd
              rcases hargsbase hOA with hb | ⟨w, hw, hwne⟩
              · rw [hb] at hgd2
                exact (Json.str.inj hgd2).symm
              · rw [hw] at hgd2
                exact absurd hgd2 (hwne o)
            rw [hfn2, ho]
            have ha0 : a0 = a := by
              rw [hava] at hav
              exact Json.str.inj hav.symm
            rw [ha0]
            exact lookupVal_setKey_self _ "arguments" _

/-- C6: merging a streamed tool-call fragment overwrites `id`, `type`
and `function.name` when the fragment supplies them (keeping the stored
value otherwise), concatenates `function.arguments` onto the stored
arguments string without ever parsing the fragments, and the finalized
message carries a `tool_calls` list exactly when at least one tool-call
accumulator exists. -/
theorem C6_tool_call_merge :
    (∀ (target delta res : Obj), _merge_tool_call target delta = .ok res →
        lookupVal res "id" =
          match lookupVal delta "id" with
          | some v => some v
          | none => lookupVal target "id") ∧
    (∀ (target delta res : Obj), _merge_tool_call target delta = .ok res →
        lookupVal res "type" =
          match lookupVal delta "type" with
          | some v => some v
          | none => lookupVal target "type") ∧
    (∀ (target delta res dfs : Obj) (v : Json),
        _merge_tool_call target delta = .ok res →
        lookupVal delta "function" = some (.obj dfs) →
        lookupVal dfs "name" = some v →
        toolFnField res "name" = some v) ∧
    (∀ (target delta res dfs : Obj) (a : String),
        _merge_tool_call target delta = .ok res →
        fnObjOrAbsent target = true →
        lookupVal delta "function" = some (.obj dfs) →
        lookupVal dfs "arguments" = some (.str a) →
        toolArgsStr res = toolArgsStr target ++ a) ∧
    (∀ c : ChoiceState,
        (lookupVal (buildMessage c) "tool_calls").isSome =
          !c.tool_calls.isEmpty) := by
  refine ⟨?_, ?_, ?_, ?_, ?_⟩
  · intro target delta res h
    rw [merge_tool_call_ne_function target delta res h "id" (by decide)]
    exact mergeIdType_id target delta
  · intro target delta res h
    rw [merge_tool_call_ne_function target delta res h "type" (by decide)]
    exact mergeIdType_type target delta
  · intro target delta res dfs v h hfv hname
    obtain ⟨fn', hres, hn, _⟩ := merge_tool_call_fn target delta res dfs h hfv
    unfold toolFnField
    rw [hres]
    exact hn v hname
  · intro target delta res dfs a h hOA hfv hargs
    obtain ⟨fn', hres, _, ha⟩ := merge_tool_call_fn target delta res dfs h hfv
    simp only [toolArgsStr, toolFnField, hres, ha a hOA hargs]
  · intro c
    rw [buildMessage_toolcalls]
    by_cases ht : c.tool_calls.isEmpty <;> simp [ht]

/-- Witness for C6: the spec's argument fragments concatenate without
being parsed, and a choice with no accumulators gets no `tool_calls`. -/
theorem C6_tool_call_merge_witness :
    toolArgsStr [("id", Json.str "t1"),
      ("function", .obj [("name", .str "f"),
        ("arguments", .str "\x7b\x22a\x22: 1\x7d")])] =
      toolArgsStr [("id", Json.str "t1"),
        ("function", .obj [("name", .str "f"),
          ("arguments", .str "\x7b\x22a\x22: ")])] ++ "1\x7d" ∧
    (lookupVal (buildMessage (initChoice 0)) "tool_calls").isSome =
      !(initChoice 0).tool_calls.isEmpty :=
  ⟨C6_tool_call_merge.2.2.2.1
      [("id", Json.str "t1"),
       ("function", .obj [("name", .str "f"),
         ("arguments", .str "\x7b\x22a\x22: ")])]
      [("function", .obj [("arguments", .str "1\x7d")])]
      [("id", Json.str "t1"),
       ("function", .obj [("name", .str "f"),
         ("arguments", .str "\x7b\x22a\x22: 1\x7d")])]
      [("arguments", .str "1\x7d")]
      "1\x7d" rfl rfl rfl rfl,
   C6_tool_call_merge.2.2.2.2 (initChoice 0)⟩

/-! ## Claim C1: aggregation safety (corrected) -/

theorem applyFinish_tools (c : ChoiceState) (cfs : Obj) :
    (applyFinish c cfs).tool_calls = c.tool_calls := by
  unfold applyFinish
  split
  · split <;> rfl
  · rfl

theorem applyRole_tools (c : ChoiceState) (dfs : Obj) :
    (applyRole c dfs).tool_calls = c.tool_calls := by
  unfold applyRole
  split <;> rfl

theorem all_getD {α : Type} (p : α → Bool) (l : List α) (n : Nat) (d : α)
    (h : l.all p = true) (hd : p d = true) : p (l.getD n d) = true := by
  induction l generalizing n with
  | nil => simpa [List.getD] using hd
  | cons a rest ih =>
      simp only [List.all_cons, Bool.and_eq_true] at h
      cases n with
      | zero => simpa [List.getD] using h.1
      | succ m => simpa [List.getD] using ih m h.2

theorem all_set {α : Type} (p : α → Bool) (l : List α) (n : Nat) (a : α)
    (h : l.all p = true) (ha : p a = true) : (l.set n a).all p = true := by
  induction l generalizing n with
  | nil => simp [List.set]
  | cons b rest ih =>
      simp only [List.all_cons, Bool.and_eq_true] at h
      cases n with
      | zero => simp [List.set, ha, h.2]
      | succ m => simp [List.set, h.1, ih m h.2]

theorem all_replicate {α : Type} (p : α → Bool) (n : Nat) (x : α)
    (hx : p x = true) : (List.replicate n x).all p = true := by
  induction n with
  | zero => rfl
  | succ m ih => simp [List.replicate, hx, ih]

theorem wfFnArgs_getDefault (fn : Obj) (h : wfFnArgs fn = true) :
    ∃ o : String, getDefault fn "arguments" (.str "") = .str o := by
  unfold wfFnArgs at h
  cases ha : lookupVal fn "arguments" with
  | none => exact ⟨"", by simp [getDefault, ha]⟩
  | some w =>
      rw [ha] at h
      cases w with
      | str s => exact ⟨s, by simp [getDefault, ha]⟩
      | null => cases h
      | bool b => cases h
      | num n => cases h
      | arr xs => cases h
      | obj fs => cases h

theorem wfFnArgs_setName (fn : Obj) (nv : Json) (h : wfFnArgs fn = true) :
    wfFnArgs (setKey fn "name" nv) = true := by
  unfold wfFnArgs at h ⊢
  rw [lookupVal_setKey_ne _ "name" "arguments" _ (by decide)]
  exact h

theorem wfFnArgs_fnObjOf_ensure (target delta : Obj)
    (ht : wfToolAcc target = true) :
    wfFnArgs (fnObjOf (ensureFn (mergeIdType target delta))) = true := by
  unfold fnObjOf
  rw [ensureFn_fn_lookup, mergeIdType_other target delta "function"
    (by decide) (by decide)]
  unfold wfToolAcc at ht
  cases hf : lookupVal target "function" with
  | none => rfl
  | some v =>
      rw [hf] at ht
      cases v with
      | obj fs => exact ht
      | null => cases ht
      | bool b => cases ht
      | num n => cases ht
      | str s => cases ht
      | arr xs => cases ht

theorem concatArgs_str_ok (fn : Obj) (a : String) (h : wfFnArgs fn = true) :
    ∃ fn2, concatArgs fn (.str a) = .ok fn2 ∧ wfFnArgs fn2 = true := by
  obtain ⟨o, ho⟩ := wfFnArgs_getDefault fn h
  refine ⟨setKey fn "arguments" (.str (o ++ a)), ?_, ?_⟩
  · unfold concatArgs
    rw [ho]
  · unfold wfFnArgs
    rw [lookupVal_setKey_self]

theorem wfToolAcc_setFn (t : Obj) (fn : Obj) (h : wfFnArgs fn = true) :
    wfToolAcc (setKey t "function" (.obj fn)) = true := by
  unfold wfToolAcc
  rw [lookupVal_setKey_self]
  exact h

theorem merge_tool_call_ok (target : Obj) (tfs : Obj)
    (ht : wfToolAcc target = true) (hf : wfToolFragFn tfs = true) :
    ∃ res, _merge_tool_call target tfs = .ok res ∧ wfToolAcc res = true := by
  unfold _merge_tool_call
  unfold wfToolFragFn at hf
  cases hfv : lookupVal tfs "function" with
  | none =>
      refine ⟨mergeIdType target tfs, rfl, ?_⟩
      unfold wfToolAcc at ht ⊢
      rw [mergeIdType_other target tfs "function" (by decide) (by decide)]
      exact ht
  | some fv =>
      rw [hfv] at hf
      cases fv with
      | obj dfs =>
          have hf2 : (match lookupVal dfs "arguments" with
              | none => true
              | some (.str _) => true
              | some _ => false) = true := hf
          have hfnwf : wfFnArgs (fnObjOf (ensureFn (mergeIdType target tfs)))
              = true := wfFnArgs_fnObjOf_ensure target tfs ht
          have hfnwf2 : wfFnArgs
              (match lookupVal dfs "name" with
               | some nv =>
                   setKey (fnObjOf (ensureFn (mergeIdType target tfs)))
                     "name" nv
               | none => fnObjOf (ensureFn (mergeIdType target tfs))) = true := by
            cases hname : lookupVal dfs "name" with
            | none => exact hfnwf
            | some nv => exact wfFnArgs_setName _ nv hfnwf
          cases hda : lookupVal dfs "arguments" with
          | none =>
              dsimp only
              simp only [hda]
              exact ⟨_, rfl, wfToolAcc_setFn _ _ hfnwf2⟩
          | some av =>
              rw [hda] at hf2
              cases av with
              | str a =>
                  obtain ⟨fn2, hcc, hwf2⟩ := concatArgs_str_ok
                    (match lookupVal dfs "name" with
                     | some nv =>
                         setKey (fnObjOf (ensureFn (mergeIdType target tfs)))
                           "name" nv
                     | none => fnObjOf (ensureFn (mergeIdType target tfs)))
                    a hfnwf2
                  dsimp only
                  simp only [hda, hcc]
                  exact ⟨_, rfl, wfToolAcc_setFn _ fn2 hwf2⟩
              | null => cases hf2
              | bool b => cases hf2
              | num n => cases hf2
              | arr xs => cases hf2
              | obj fs => cases hf2
      | null => cases hf
      | bool b => cases hf
      | num n => cases hf
      | str s => cases hf
      | arr xs => cases hf

theorem processToolFrag_ok (tools : List Obj) (tc : Json)
    (ht : tools.all wfToolAcc = true) (hf : wfToolFrag tc = true) :
    ∃ tools', processToolFrag tools tc = .ok tools' ∧
      tools'.all wfToolAcc = true := by
  unfold wfToolFrag at hf
  cases tc with
  | obj tfs =>
      simp only [Bool.and_eq_true] at hf
      obtain ⟨hidx, hfn⟩ := hf
      unfold processToolFrag
      dsimp only
      cases hix : (lookupVal tfs "index").bind asPyInt? with
      | none => exact ⟨tools, rfl, ht⟩
      | some n =>
          rw [hix] at hidx
          have hn : 0 ≤ n := by simpa using hidx
          dsimp only
          rw [if_pos hn]
          have hpad : (tools ++ List.replicate (n.toNat + 1 - tools.length)
              []).all wfToolAcc = true := by
            rw [List.all_append]
            simp only [Bool.and_eq_true]
            exact ⟨ht, all_replicate wfToolAcc _ [] rfl⟩
          have htarget : wfToolAcc ((tools ++ List.replicate
              (n.toNat + 1 - tools.length) []).getD n.toNat []) = true :=
            all_getD wfToolAcc _ n.toNat [] hpad rfl
          obtain ⟨res, hres, hwfres⟩ := merge_tool_call_ok _ tfs htarget hfn
          rw [hres]
          exact ⟨_, rfl, all_set wfToolAcc _ n.toNat res hpad hwfres⟩
  | null => cases hf
  | bool b => cases hf
  | num n => cases hf
  | str s => cases hf
  | arr xs => cases hf

theorem foldE_toolFrags_ok (items : List Json) (tools : List Obj)
    (ht : tools.all wfToolAcc = true) (hw : items.all wfToolFrag = true) :
    ∃ tools', foldE processToolFrag tools items = .ok tools' ∧
      tools'.all wfToolAcc = true := by
  induction items generalizing tools with
  | nil => exact ⟨tools, rfl, ht⟩
  | cons a rest ih =>
      simp only [List.all_cons, Bool.and_eq_true] at hw
      obtain ⟨t1, h1, hw1⟩ := processToolFrag_ok tools a ht hw.1
      obtain ⟨t2, h2, hw2⟩ := ih t1 hw1 hw.2
      exact ⟨t2, by simp only [foldE_cons, h1, h2], hw2⟩

theorem applyContent_ok (c : ChoiceState) (dfs : Obj)
    (h : (match lookupVal dfs "content" with
          | none => true
          | some .null => true
          | some (.str _) => true
          | some _ => false) = true) :
    ∃ c', applyContent c dfs = .ok c' ∧ c'.tool_calls = c.tool_calls := by
  unfold applyContent
  cases hc : lookupVal dfs "content" with
  | none => exact ⟨c, rfl, rfl⟩
  | some v =>
      rw [hc] at h
      cases v with
      | null => exact ⟨c, rfl, rfl⟩
      | str s => exact ⟨_, rfl, rfl⟩
      | bool b => cases h
      | num n => cases h
      | arr xs => cases h
      | obj fs => cases h

theorem applyChoiceEntry_ok (c : ChoiceState) (cfs : Obj)
    (hc : wfChoiceState c = true) (hw : wfChoice (.obj cfs) = true) :
    ∃ c', applyChoiceEntry c cfs = .ok c' ∧ wfChoiceState c' = true := by
  unfold applyChoiceEntry
  unfold wfChoice at hw
  have hw2 : wfDelta (getDefault cfs "delta" (.obj [])) = true := hw
  cases hd : getDefault cfs "delta" (.obj []) with
  | obj dfs =>
      rw [hd] at hw2
      unfold wfDelta at hw2
      simp only [Bool.and_eq_true] at hw2
      obtain ⟨hwc, hwt⟩ := hw2
      obtain ⟨c1, hc1, hct⟩ :=
        applyContent_ok (applyRole (applyFinish c cfs) dfs) dfs hwc
      have htools : c1.tool_calls = c.tool_calls := by
        rw [hct, applyRole_tools, applyFinish_tools]
      have hcallwf : c1.tool_calls.all wfToolAcc = true := by
        rw [htools]
        exact hc
      simp only [hc1]
      cases hti : lookupVal dfs "tool_calls" with
      | none =>
          have : toolItemsOf dfs = .arr [] := by
            unfold toolItemsOf
            simp [getDefault, hti, truthy]
          rw [this]
          exact ⟨_, rfl, by simpa [wfChoiceState] using hcallwf⟩
      | some tv =>
          rw [hti] at hwt
          cases tv with
          | null =>
              have : toolItemsOf dfs = .arr [] := by
                unfold toolItemsOf
                simp [getDefault, hti, truthy]
              rw [this]
              exact ⟨_, rfl, by simpa [wfChoiceState] using hcallwf⟩
          | arr ts =>
              cases ts with
              | nil =>
                  have : toolItemsOf dfs = .arr [] := by
                    unfold toolItemsOf
                    simp [getDefault, hti, truthy]
                  rw [this]
                  exact ⟨_, rfl, by simpa [wfChoiceState] using hcallwf⟩
              | cons t0 trest =>
                  have : toolItemsOf dfs = .arr (t0 :: trest) := by
                    unfold toolItemsOf
                    simp [getDefault, hti, truthy]
                  rw [this]
                  obtain ⟨tools', hfold, hwf'⟩ :=
                    foldE_toolFrags_ok (t0 :: trest) c1.tool_calls hcallwf hwt
                  simp only [pyIter, hfold]
                  exact ⟨_, rfl, by simpa [wfChoiceState] using hwf'⟩
          | bool b => cases hwt
          | num n => cases hwt
          | str s => cases hwt
          | obj fs => cases hwt
  | null =>
      exact ⟨_, rfl, by simpa [wfChoiceState, applyFinish_tools] using hc⟩
  | bool b =>
      exact ⟨_, rfl, by simpa [wfChoiceState, applyFinish_tools] using hc⟩
  | num n =>
      exact ⟨_, rfl, by simpa [wfChoiceState, applyFinish_tools] using hc⟩
  | str s =>
      exact ⟨_, rfl, by simpa [wfChoiceState, applyFinish_tools] using hc⟩
  | arr xs =>
      exact ⟨_, rfl, by simpa [wfChoiceState, applyFinish_tools] using hc⟩

theorem assocFind_mem (st : List (Int × ChoiceState)) (i : Int)
    (c : ChoiceState) (h : assocFind st i = some c) : (i, c) ∈ st := by
  induction st with
  | nil => cases h
  | cons p rest ih =>
      obtain ⟨k, d⟩ := p
      unfold assocFind at h
      by_cases hk : k = i
      · rw [if_pos hk] at h
        cases h
        subst hk
        exact List.mem_cons_self _ _
      · rw [if_neg hk] at h
        exact List.mem_cons_of_mem _ (ih h)

theorem all_assocSet (st : List (Int × ChoiceState)) (i : Int)
    (c : ChoiceState) (h : st.all (fun p => wfChoiceState p.2) = true)
    (hc : wfChoiceState c = true) :
    (assocSet st i c).all (fun p => wfChoiceState p.2) = true := by
  induction st with
  | nil => simp [assocSet, hc]
  | cons p rest ih =>
      obtain ⟨k, d⟩ := p
      simp only [List.all_cons, Bool.and_eq_true] at h
      unfold assocSet
      by_cases hk : k = i
      · rw [if_pos hk]
        simp [hc, h.2]
      · rw [if_neg hk]
        simp [h.1, ih h.2]

theorem processChoiceEntry_ok (st : List (Int × ChoiceState)) (ch : Json)
    (hst : st.all (fun p => wfChoiceState p.2) = true)
    (hw : wfChoice ch = true) :
    ∃ st', processChoiceEntry st ch = .ok st' ∧
      st'.all (fun p => wfChoiceState p.2) = true := by
  cases ch with
  | obj cfs =>
      unfold processChoiceEntry
      dsimp only
      cases hix : (lookupVal cfs "index").bind asPyInt? with
      | none => exact ⟨st, rfl, hst⟩
      | some i =>
          have hc0 : wfChoiceState ((assocFind st i).getD (initChoice i))
              = true := by
            cases hfd : assocFind st i with
            | none => rfl
            | some c0 =>
                have hmem := assocFind_mem st i c0 hfd
                rw [List.all_eq_true] at hst
                simpa using hst _ hmem
          obtain ⟨c', hap, hwf'⟩ := applyChoiceEntry_ok _ cfs hc0 hw
          simp only [hap]
          exact ⟨_, rfl, all_assocSet st i c' hst hwf'⟩
  | null => cases hw
  | bool b => cases hw
  | num n => cases hw
  | str s => cases hw
  | arr xs => cases hw

theorem foldE_choices_ok (cs : List Json) (st : List (Int × ChoiceState))
    (hst : st.all (fun p => wfChoiceState p.2) = true)
    (hw : cs.all wfChoice = true) :
    ∃ st', foldE processChoiceEntry st cs = .ok st' ∧
      st'.all (fun p => wfChoiceState p.2) = true := by
  induction cs generalizing st with
  | nil => exact ⟨st, rfl, hst⟩
  | cons a rest ih =>
      simp only [List.all_cons, Bool.and_eq_true] at hw
      obtain ⟨st1, h1, hw1⟩ := processChoiceEntry_ok st a hst hw.1
      obtain ⟨st2, h2, hw2⟩ := ih st1 hw1 hw.2
      exact ⟨st2, by simp only [foldE_cons, h1, h2], hw2⟩

theorem processEvent_ok (s : AggState) (e : Json)
    (hst : s.choices_state.all (fun p => wfChoiceState p.2) = true)
    (hw : wfEvent e = true) :
    ∃ s', processEvent s e = .ok s' ∧
      s'.choices_state.all (fun p => wfChoiceState p.2) = true := by
  cases e with
  | obj efs =>
      unfold wfEvent at hw
      have hw2 : (match lookupVal efs "choices" with
          | none => true
          | some (.arr cs) => cs.all wfChoice
          | some _ => false) = true := hw
      unfold processEvent
      dsimp only
      cases hch : lookupVal efs "choices" with
      | none =>
          simp only [getDefault, hch, Option.getD, pyIter, foldE_nil]
          exact ⟨_, rfl, hst⟩
      | some v =>
          rw [hch] at hw2
          cases v with
          | arr cs =>
              simp only [getDefault, hch, Option.getD, pyIter]
              obtain ⟨st', hfold, hwf'⟩ := foldE_choices_ok cs _ hst hw2
              simp only [hfold]
              exact ⟨_, rfl, hwf'⟩
          | null => cases hw2
          | bool b => cases hw2
          | num n => cases hw2
          | str s0 => cases hw2
          | obj fs => cases hw2
  | null => cases hw
  | bool b => cases hw
  | num n => cases hw
  | str s0 => cases hw
  | arr xs => cases hw

theorem foldE_events_ok (events : List Json) (s : AggState)
    (hst : s.choices_state.all (fun p => wfChoiceState p.2) = true)
    (hw : ∀ e ∈ events, wfEvent e = true) :
    ∃ s', foldE processEvent s events = .ok s' := by
  induction events generalizing s with
  | nil => exact ⟨s, rfl⟩
  | cons e rest ih =>
      obtain ⟨s1, h1, hw1⟩ := processEvent_ok s e hst
        (hw e (List.mem_cons_self e rest))
      obtain ⟨s2, h2⟩ := ih s1 hw1
        (fun x hx => hw x (List.mem_cons_of_mem e hx))
      exact ⟨s2, by simp only [foldE_cons, h1, h2]⟩

/-- C1 counterexample: both inputs are lists of JSON-object events, yet
aggregation raises.  The first carries a tool-call fragment with integer
index `-1` (an integer index outside the known range that is *not*
padded, but raises `IndexError` on the empty accumulator list); the
second has a non-iterable `choices` value, raising `TypeError`. -/
theorem C1_aggregation_counterexample :
    aggregate_streamed_response [evNegToolIdx] =
      .error "IndexError: list index out of range" ∧
    aggregate_streamed_response [evBadChoices] =
      .error "TypeError: object is not iterable" :=
  ⟨rfl, rfl⟩

/-- C1 (amended): for every list of well-shaped JSON-object events —
each event's `choices`, when present, a list of objects; each
`delta.content` null or a string; each `delta.tool_calls` absent, null
or a list of object fragments whose integer indices are non-negative and
whose `function` payloads are objects with string `arguments` —
`aggregate_streamed_response` returns a result without raising.  A
choice entry or tool-call fragment without an integer index is skipped,
and a non-negative integer tool-call index at or beyond the current list
length extends the list by padding with empty accumulators to exactly
`index + 1` entries. -/
theorem C1_aggregation_safety :
    (∀ events : List Json, (∀ e ∈ events, wfEvent e = true) →
        ∃ r, aggregate_streamed_response events = .ok r) ∧
    (∀ (st : List (Int × ChoiceState)) (cfs : Obj),
        (lookupVal cfs "index").bind asPyInt? = none →
        processChoiceEntry st (.obj cfs) = .ok st) ∧
    (∀ (tools : List Obj) (tfs : Obj),
        (lookupVal tfs "index").bind asPyInt? = none →
        processToolFrag tools (.obj tfs) = .ok tools) ∧
    (∀ (tools : List Obj) (tfs : Obj) (n : Int) (tools' : List Obj),
        (lookupVal tfs "index").bind asPyInt? = some n →
        0 ≤ n → tools.length ≤ n.toNat →
        processToolFrag tools (.obj tfs) = .ok tools' →
        tools'.length = n.toNat + 1) := by
  refine ⟨?_, ?_, ?_, ?_⟩
  · intro events hw
    cases events with
    | nil => exact ⟨none, rfl⟩
    | cons first rest =>
        obtain ⟨s, hs⟩ := foldE_events_ok (first :: rest) ⟨[], none⟩ rfl hw
        unfold aggregate_streamed_response aggStateOf
        simp only [hs]
        exact ⟨_, rfl⟩
  · intro st cfs hix
    unfold processChoiceEntry
    dsimp only
    rw [hix]
  · intro tools tfs hix
    unfold processToolFrag
    dsimp only
    rw [hix]
  · intro tools tfs n tools' hix hn hlen h
    unfold processToolFrag at h
    dsimp only at h
    rw [hix] at h
    dsimp only at h
    rw [if_pos hn] at h
    cases hm : _merge_tool_call ((tools ++ List.replicate
        (n.toNat + 1 - tools.length) []).getD n.toNat []) tfs with
    | error e0 => rw [hm] at h; cases h
    | ok merged =>
        rw [hm] at h
        cases h
        rw [List.length_set, List.length_append, List.length_replicate]
        omega

/-- Witness for C1: the Hello stream is well-shaped and aggregates
without error; fragments without integer indices are skipped; a
tool-call fragment at index 2 over an empty list pads it to length 3. -/
theorem C1_aggregation_safety_witness :
    (∃ r, aggregate_streamed_response [evHelloA, evHelloB] = .ok r) ∧
    processChoiceEntry [] (.obj [("index", .str "x")]) = .ok [] ∧
    processToolFrag [] (.obj [("index", .null)]) = .ok [] ∧
    ([([] : Obj), [], []] : List Obj).length = (2 : Int).toNat + 1 :=
  ⟨C1_aggregation_safety.1 [evHelloA, evHelloB] (by decide),
   C1_aggregation_safety.2.1 [] [("index", .str "x")] rfl,
   C1_aggregation_safety.2.2.1 [] [("index", .null)] rfl,
   C1_aggregation_safety.2.2.2 [] [("index", .num 2)] 2 [[], [], []]
     rfl (by decide) (by decide) rfl⟩

end LlmBatch
